import Mathlib

/-!
# Verification of the audio analysis core (`audioAnalyzer` module)

A shallow embedding, in Lean 4, of the signal-analysis core of the
repository: the YIN pitch detector, the BPM detector, the chromagram /
chord recognizer, the RMS volume computation, the configuration handling
of `AudioAnalyzer`, and the `frequencyToNote` / `noteToFrequency`
utilities.

Modelling conventions (JavaScript semantics):

* IEEE doubles / `Float32Array` entries are modelled by exact numbers
  (`ℚ` where the source only uses field operations and comparisons, `ℝ`
  where it takes square roots, logarithms or powers).  Floating-point
  rounding is not modelled.
* A JS number that can be `NaN` on a reachable path is modelled as
  `Option ℚ` with `none` for `NaN`; every comparison `NaN < x`,
  `x < NaN` is `false`, which `jsLt` reproduces.
* Reading a typed array out of bounds yields `undefined` in JS; any
  comparison with `undefined` is `false`.  Reads are therefore wrapped
  in a bounds check that returns `none` out of range.
* `new Float32Array(n)` truncates a fractional length (ES `ToIndex`) and
  throws a `RangeError` for a negative one; functions that can hit the
  negative case are embedded in `Except String`.
* Writing past the end of a typed array is a silent no-op; together with
  the `undefined`-comparison rule this makes the fractional `maxLag`
  bound in the YIN detector behave exactly like the truncated array
  length, which is how it is embedded below.
-/

namespace AudioAnalysis

/-- `NOTE_NAMES` from the source: the twelve pitch-class names. -/
def NOTE_NAMES : List String :=
  ["C", "C#", "D", "D#", "E", "F"] ++ ["F#", "G", "G#", "A", "A#", "B"]

/-- `CHORD_TEMPLATES` from the source, in declaration (iteration) order:
semitone intervals of each chord quality relative to the root. -/
def CHORD_TEMPLATES : List (String × List ℕ) :=
  [("major", [0, 4, 7]),
   ("minor", [0, 3, 7]),
   ("diminished", [0, 3, 6]),
   ("augmented", [0, 4, 8]),
   ("suspended4", [0, 5, 7]),
   ("suspended2", [0, 2, 7])]

/-- The `ChordInfo.type` union from the source. -/
inductive ChordType where
  | major | minor | diminished | augmented | suspended | unknown
deriving DecidableEq

/-- The string each `ChordType` tag interpolates to in the source. -/
def ChordType.label : ChordType → String
  | .major => "major"
  | .minor => "minor"
  | .diminished => "diminished"
  | .augmented => "augmented"
  | .suspended => "suspended"
  | .unknown => "unknown"

/-- `ChordInfo` from the source. -/
structure ChordInfo where
  root : String
  type : ChordType
  name : String
  notes : List String
  confidence : ℚ
deriving DecidableEq

namespace ChordRecognizer

/-- `ChordRecognizer.formatChordType`. -/
def formatChordType (t : String) : ChordType :=
  if t = "major" then .major
  else if t = "minor" then .minor
  else if t = "diminished" then .diminished
  else if t = "augmented" then .augmented
  else if t = "suspended4" then .suspended
  else if t = "suspended2" then .suspended
  else .unknown

/-- `ChordRecognizer.matchTemplate`: reward the template's pitch classes,
penalise energy at the other classes by a factor 0.3.  A chromagram is a
12-element `Float32Array`; it is modelled as `Fin 12 → ℚ` (all reads in
the source are at indices reduced mod 12, hence in bounds). -/
def matchTemplate (chromagram : Fin 12 → ℚ) (root : ℕ) (intervals : List ℕ) : ℚ :=
  (intervals.map (fun iv => chromagram ⟨(root + iv) % 12, Nat.mod_lt _ (by omega)⟩)).sum
    - ∑ i : Fin 12,
        (if (i.val + 12 - root) % 12 ∈ intervals then 0 else chromagram i * (3 / 10))

/-- All (root, template) pairs in the iteration order of the source:
outer loop over roots 0..11, inner loop over `CHORD_TEMPLATES`. -/
def chordPairs : List (ℕ × String × List ℕ) :=
  (List.range 12).flatMap fun root => CHORD_TEMPLATES.map fun t => (root, t.1, t.2)

/-- The `ChordInfo` record the source builds when template
`(root, tname, intervals)` becomes the current best.  Its confidence is
`Math.min(score / 3, 1)`. -/
def buildChord (chromagram : Fin 12 → ℚ) (root : ℕ) (tname : String)
    (intervals : List ℕ) : ChordInfo :=
  let score := matchTemplate chromagram root intervals
  { root := NOTE_NAMES.getD root ""
    type := formatChordType tname
    name := NOTE_NAMES.getD root "" ++
      (if tname = "major" then "" else (formatChordType tname).label)
    notes := intervals.map fun iv => NOTE_NAMES.getD ((root + iv) % 12) ""
    confidence := min (score / 3) 1 }

/-- One iteration of the template loop in `ChordRecognizer.recognize`.
The running best score starts at `-Infinity`, modelled by `⊥ : WithBot ℚ`. -/
def recognizeStep (chromagram : Fin 12 → ℚ) (st : WithBot ℚ × Option ChordInfo)
    (p : ℕ × String × List ℕ) : WithBot ℚ × Option ChordInfo :=
  let score := matchTemplate chromagram p.1 p.2.2
  if st.1 < (score : WithBot ℚ) then
    ((score : WithBot ℚ), some (buildChord chromagram p.1 p.2.1 p.2.2))
  else st

/-- `ChordRecognizer.recognize`. -/
def recognize (chromagram : Fin 12 → ℚ) : Option ChordInfo :=
  (chordPairs.foldl (recognizeStep chromagram) (⊥, none)).2

/-- The best template-match score over all 72 (root, template) pairs
(the final value of `bestScore` in the source). -/
def bestTemplateScore (chromagram : Fin 12 → ℚ) : WithBot ℚ :=
  (chordPairs.map fun p => ((matchTemplate chromagram p.1 p.2.2 : ℚ) : WithBot ℚ)).foldl max ⊥

/-- The best-score component of the fold is the running maximum of the
processed template scores. -/
lemma foldl_recognizeStep_fst (chromagram : Fin 12 → ℚ) :
    ∀ (l : List (ℕ × String × List ℕ)) (st : WithBot ℚ × Option ChordInfo),
      (l.foldl (recognizeStep chromagram) st).1 =
        (l.map fun p => ((matchTemplate chromagram p.1 p.2.2 : ℚ) : WithBot ℚ)).foldl max st.1 := by
  intro l
  induction l with
  | nil => intro st; rfl
  | cons p t ih =>
    intro st
    simp only [List.foldl_cons, List.map_cons, ih]
    congr 1
    simp only [recognizeStep]
    split
    · next h => exact (max_eq_right h.le).symm
    · next h => exact (max_eq_left (not_lt.mp h)).symm

/-- Fold invariant for `recognize`: whenever the state carries a chord, that
chord was built from one of the processed (root, template) pairs, and its
confidence is `min (bestScore / 3) 1` for the current best score; a `none`
chord goes with a `⊥` best score. -/
lemma foldl_recognizeStep_invariant (chromagram : Fin 12 → ℚ) :
    ∀ (l : List (ℕ × String × List ℕ)) (st : WithBot ℚ × Option ChordInfo),
      l ⊆ chordPairs →
      ((∀ ch, st.2 = some ch →
          (∃ p ∈ chordPairs, ch = buildChord chromagram p.1 p.2.1 p.2.2) ∧
          (∃ s : ℚ, st.1 = (s : WithBot ℚ) ∧
            ch.confidence = min (s / 3) 1)) ∧
        (st.2 = none → st.1 = ⊥)) →
      ((∀ ch, (l.foldl (recognizeStep chromagram) st).2 = some ch →
          (∃ p ∈ chordPairs, ch = buildChord chromagram p.1 p.2.1 p.2.2) ∧
          (∃ s : ℚ, (l.foldl (recognizeStep chromagram) st).1 = (s : WithBot ℚ) ∧
            ch.confidence = min (s / 3) 1)) ∧
        ((l.foldl (recognizeStep chromagram) st).2 = none →
          (l.foldl (recognizeStep chromagram) st).1 = ⊥)) := by
  intro l
  induction l with
  | nil => intro st _ h; exact h
  | cons p t ih =>
    intro st hsub hst
    simp only [List.foldl_cons]
    refine ih _ (fun x hx => hsub (List.mem_cons_of_mem _ hx)) ?_
    simp only [recognizeStep]
    split
    · next hlt =>
      constructor
      · intro ch hch
        refine ⟨⟨p, hsub (List.mem_cons_self _ _), ?_⟩,
          ⟨matchTemplate chromagram p.1 p.2.2, rfl, ?_⟩⟩
        · cases hch; rfl
        · cases hch; rfl
      · intro h; cases h
    · next hlt => exact hst

/-- If the state already carries a chord, folding more pairs keeps a chord. -/
lemma foldl_recognizeStep_isSome (chromagram : Fin 12 → ℚ) :
    ∀ (l : List (ℕ × String × List ℕ)) (st : WithBot ℚ × Option ChordInfo),
      st.2.isSome → (l.foldl (recognizeStep chromagram) st).2.isSome := by
  intro l
  induction l with
  | nil => intro st h; exact h
  | cons p t ih =>
    intro st h
    simp only [List.foldl_cons]
    refine ih _ ?_
    simp only [recognizeStep]
    split
    · rfl
    · exact h

/-- `recognize` always returns a chord: the first iteration (root 0,
template `major`) always beats the initial `-Infinity` best score. -/
lemma recognize_isSome (chromagram : Fin 12 → ℚ) : (recognize chromagram).isSome := by
  have h12 : chordPairs = (0, "major", [0, 4, 7]) ::
      ((List.range 12).flatMap fun root =>
        CHORD_TEMPLATES.map fun t => (root, t.1, t.2)).tail := by
    decide
  unfold recognize
  rw [h12]
  simp only [List.foldl_cons]
  apply foldl_recognizeStep_isSome
  simp only [recognizeStep]
  rw [if_pos (by exact WithBot.bot_lt_coe _)]
  rfl

/-- Characterization of a successful `recognize`: the returned chord comes
from one of the 72 (root, template) pairs and its confidence is the clamped
`min (bestScore / 3) 1`. -/
lemma recognize_eq_some (chromagram : Fin 12 → ℚ) (ch : ChordInfo)
    (h : recognize chromagram = some ch) :
    (∃ p ∈ chordPairs, ch = buildChord chromagram p.1 p.2.1 p.2.2) ∧
    (∃ s : ℚ, bestTemplateScore chromagram = (s : WithBot ℚ) ∧
      ch.confidence = min (s / 3) 1) := by
  have hinv := foldl_recognizeStep_invariant chromagram chordPairs (⊥, none)
    (fun x hx => hx) (by constructor <;> simp)
  have h1 := (hinv.1 ch h)
  refine ⟨h1.1, ?_⟩
  obtain ⟨s, hs, hconf⟩ := h1.2
  refine ⟨s, ?_, hconf⟩
  rw [bestTemplateScore, ← foldl_recognizeStep_fst chromagram chordPairs (⊥, none), hs]

end ChordRecognizer

namespace AudioAnalyzer

/-- `AnalysisOptions`: the partial options object passed to the
`AudioAnalyzer` constructor and to `setOptions`; `none` models an absent
field. -/
structure AnalysisOptions where
  fftSize : Option ℚ := none
  smoothingTimeConstant : Option ℚ := none
  minFrequency : Option ℚ := none
  maxFrequency : Option ℚ := none
  yinThreshold : Option ℚ := none
  enableAdvanced : Option Bool := none
  minBpm : Option ℚ := none
  maxBpm : Option ℚ := none
deriving DecidableEq

/-- `Required<AnalysisOptions>`: the analyzer's fully resolved options. -/
structure ResolvedOptions where
  fftSize : ℚ
  smoothingTimeConstant : ℚ
  minFrequency : ℚ
  maxFrequency : ℚ
  yinThreshold : ℚ
  enableAdvanced : Bool
  minBpm : ℚ
  maxBpm : ℚ
deriving DecidableEq

/-- The option resolution performed by the `AudioAnalyzer` constructor:
each field defaults via `??`.  The constructor performs no validation of
any field and cannot fail. -/
def resolveOptions (o : AnalysisOptions) : ResolvedOptions :=
  { fftSize := o.fftSize.getD 2048
    smoothingTimeConstant := o.smoothingTimeConstant.getD (8 / 10)
    minFrequency := o.minFrequency.getD 50
    maxFrequency := o.maxFrequency.getD 5000
    yinThreshold := o.yinThreshold.getD (1 / 10)
    enableAdvanced := o.enableAdvanced.getD false
    minBpm := o.minBpm.getD 60
    maxBpm := o.maxBpm.getD 180 }

/-- `AudioAnalyzer.setOptions`: each supplied field overwrites the stored
one; no field is validated and the update cannot fail. -/
def setOptions (cur : ResolvedOptions) (o : AnalysisOptions) : ResolvedOptions :=
  { fftSize := o.fftSize.getD cur.fftSize
    smoothingTimeConstant := o.smoothingTimeConstant.getD cur.smoothingTimeConstant
    minFrequency := o.minFrequency.getD cur.minFrequency
    maxFrequency := o.maxFrequency.getD cur.maxFrequency
    yinThreshold := o.yinThreshold.getD cur.yinThreshold
    enableAdvanced := o.enableAdvanced.getD cur.enableAdvanced
    minBpm := o.minBpm.getD cur.minBpm
    maxBpm := o.maxBpm.getD cur.maxBpm }

/-- `AudioAnalyzer.calculateVolume`: RMS over the window, scaled by `√2`
and clamped to 1.  On an empty window the source computes
`Math.sqrt(0 / 0) = NaN` and `Math.min(NaN * √2, 1) = NaN`; the `NaN`
result is modelled as `none`. -/
noncomputable def calculateVolume (data : List ℝ) : Option ℝ :=
  if data.isEmpty then none
  else
    let rms := Real.sqrt ((data.map fun x => x * x).sum / data.length)
    some (min (rms * Real.sqrt 2) 1)

end AudioAnalyzer

namespace YINDetector

/-- The constructor state of `YINDetector`. -/
structure Config where
  sampleRate : ℚ
  threshold : ℚ
  minFrequency : ℚ
  maxFrequency : ℚ
deriving DecidableEq

/-- A pitch detection result: `{ frequency, confidence }`. -/
structure PitchOutput where
  frequency : ℚ
  confidence : ℚ
deriving DecidableEq

/-- `minLag = Math.floor(sampleRate / maxFrequency)`.  A negative value
(only possible for a non-positive `maxFrequency`) starts the JS scan at a
negative index whose reads are all `undefined`, which behaves exactly like
starting at 0; `Int.toNat` clamps accordingly. -/
def minLagN (cfg : Config) : ℕ := (⌊cfg.sampleRate / cfg.maxFrequency⌋).toNat

/-- `maxLag = Math.min(Math.floor(sampleRate / minFrequency), bufferSize / 2)`.
For odd buffers this is a half-integer. -/
def maxLagQ (cfg : Config) (bufferSize : ℕ) : ℚ :=
  min ((⌊cfg.sampleRate / cfg.minFrequency⌋ : ℚ)) ((bufferSize : ℚ) / 2)

/-- Length of the `difference` / `cmndf` arrays:
`new Float32Array(maxLag)` truncates a fractional length. -/
def cmndfLen (cfg : Config) (bufferSize : ℕ) : ℕ := (⌊maxLagQ cfg bufferSize⌋).toNat

/-- The integer bound equivalent to the JS loop guard `tau < maxLag`
for integer `tau ≥ 0`. -/
def scanBound (cfg : Config) (bufferSize : ℕ) : ℕ := (⌈maxLagQ cfg bufferSize⌉).toNat

/-- `YINDetector.differenceFunction`:
`d[tau] = Σ_{j < bufferSize - maxLag} (x[j] - x[j+tau])²`.  The number of
integers `j` with `j < bufferSize - maxLag` is `bufferSize - ⌊maxLag⌋ = B - n`,
where `n` is the (truncated) array length. -/
def differenceFunction (buffer : List ℚ) (n : ℕ) (tau : ℕ) : ℚ :=
  ∑ j ∈ Finset.range (buffer.length - n),
    (buffer.getD j 0 - buffer.getD (j + tau) 0) ^ 2

/-- The running sum `Σ_{j=1}^{tau} d[j]` of
`cumulativeMeanNormalizedDifference`. -/
def runningSum (buffer : List ℚ) (n : ℕ) (tau : ℕ) : ℚ :=
  ∑ j ∈ Finset.Icc 1 tau, differenceFunction buffer n j

/-- `YINDetector.cumulativeMeanNormalizedDifference`:
`cmndf[0] = 1`, `cmndf[tau] = d[tau] / (runningSum / tau)`.  Because every
`d[j]` is a sum of squares, `runningSum = 0` forces `d[tau] = 0`, so the JS
division is then `0 / 0 = NaN`, modelled as `none`; otherwise the exact
rational `d[tau] * tau / runningSum` is the value. -/
def cmndf (buffer : List ℚ) (n : ℕ) (tau : ℕ) : Option ℚ :=
  if tau = 0 then some 1
  else if runningSum buffer n tau = 0 then none
  else some (differenceFunction buffer n tau * tau / runningSum buffer n tau)

/-- Read `cmndf[tau]`: a JS out-of-bounds read yields `undefined`,
modelled as `none` (it only ever feeds `<` comparisons, where `undefined`
and `NaN` behave identically: the comparison is false). -/
def cmndfRead (buffer : List ℚ) (n : ℕ) (tau : ℕ) : Option ℚ :=
  if tau < n then cmndf buffer n tau else none

/-- The JS `<` on possibly-`NaN`/`undefined` numbers: false unless both
sides are real numbers that compare. -/
def jsLt : Option ℚ → Option ℚ → Bool
  | some a, some b => decide (a < b)
  | _, _ => false

/-- The descent loop of `absoluteThreshold`:
`while (tau + 1 < maxLag && cmndf[tau + 1] < cmndf[tau]) tau++`.
The while loop stops at the first `t ≥ tau` violating the guard; for
`tau < N` such a `t` exists (at the latest `t = N - 1`). -/
def descendMin (buffer : List ℚ) (n N tau : ℕ) : ℕ :=
  (((List.range' tau (N - tau)).find? fun t =>
    !(decide (t + 1 < N) && jsLt (cmndfRead buffer n (t + 1)) (cmndfRead buffer n t)))).getD tau

/-- `YINDetector.absoluteThreshold`: scan `tau` from `minLag` while
`tau < maxLag`; at the first `tau` with `cmndf[tau] < threshold`, descend
to the local minimum and return it; `none` models the `-1` "no pitch"
result. -/
def absoluteThreshold (buffer : List ℚ) (n N : ℕ) (threshold : ℚ) (minLag : ℕ) : Option ℕ :=
  (((List.range' minLag (N - minLag)).find? fun tau =>
    jsLt (cmndfRead buffer n tau) (some threshold))).map (descendMin buffer n N)

/-- `YINDetector.parabolicInterpolation`.  The guard keeps integer `tau`
at either boundary of the array; the interpolation otherwise refines it by
`(γ - α) / (2(2β - α - γ))` unless the denominator is smaller than
`1e-10` in absolute value.  For a threshold ≤ 1 the three reads are never
`NaN` (see `cmndf_at_scan_result`), so the `.getD 0` defaults are never
observed on paths reached by `detect`. -/
def parabolicInterpolation (buffer : List ℚ) (n : ℕ) (tau : ℕ) : ℚ :=
  if tau = 0 ∨ n - 1 ≤ tau then (tau : ℚ)
  else
    let alpha := (cmndfRead buffer n (tau - 1)).getD 0
    let beta := (cmndfRead buffer n tau).getD 0
    let gamma := (cmndfRead buffer n (tau + 1)).getD 0
    let denom := 2 * (2 * beta - alpha - gamma)
    if |denom| < 1 / 10 ^ 10 then (tau : ℚ)
    else (tau : ℚ) + (gamma - alpha) / denom

/-- `YINDetector.detect`. -/
def detect (cfg : Config) (buffer : List ℚ) : Option PitchOutput :=
  let n := cmndfLen cfg buffer.length
  let N := scanBound cfg buffer.length
  match absoluteThreshold buffer n N cfg.threshold (minLagN cfg) with
  | none => none
  | some tau =>
    let betterTau := parabolicInterpolation buffer n tau
    let frequency := cfg.sampleRate / betterTau
    let confidence := 1 - (cmndfRead buffer n tau).getD 0
    if frequency < cfg.minFrequency ∨ cfg.maxFrequency < frequency then none
    else some ⟨frequency, confidence⟩

end YINDetector

/-- `find?` over `range' s len` returns the first element satisfying the
predicate. -/
lemma find?_range'_first (p : ℕ → Bool) :
    ∀ (len s a : ℕ), (List.range' s len).find? p = some a →
      s ≤ a ∧ a < s + len ∧ p a = true ∧ ∀ t, s ≤ t → t < a → p t = false := by
  intro len
  induction len with
  | zero => intro s a h; simp at h
  | succ m ih =>
    intro s a h
    rw [List.range'_succ] at h
    rw [List.find?_cons] at h
    split at h
    · next hp =>
      cases h
      exact ⟨le_rfl, by omega, hp, fun t hst hta => absurd hst (by omega)⟩
    · next hp =>
      obtain ⟨h1, h2, h3, h4⟩ := ih (s + 1) a h
      refine ⟨by omega, by omega, h3, fun t hst hta => ?_⟩
      rcases eq_or_lt_of_le hst with rfl | hlt
      · exact Bool.not_eq_true _ ▸ hp
      · exact h4 t hlt hta

/-- `find?` over `range' s len` fails exactly when no element satisfies the
predicate. -/
lemma find?_range'_none (p : ℕ → Bool) (len s : ℕ) :
    (List.range' s len).find? p = none ↔ ∀ t, s ≤ t → t < s + len → p t = false := by
  rw [List.find?_eq_none]
  constructor
  · intro h t h1 h2
    exact Bool.not_eq_true _ ▸ h t (List.mem_range'_1.mpr ⟨h1, h2⟩)
  · intro h x hx
    obtain ⟨h1, h2⟩ := List.mem_range'_1.mp hx
    simp [h x h1 h2]

namespace YINDetector

/-- Characterization of the descent loop: it stops at the first index `r`
(at or after `tau`) where the loop guard fails, and every index strictly
before `r` satisfies the guard. -/
lemma descendMin_spec (buffer : List ℚ) (n N tau : ℕ) (h : tau < N) :
    tau ≤ descendMin buffer n N tau ∧ descendMin buffer n N tau < N ∧
      (∀ k, tau ≤ k → k < descendMin buffer n N tau →
        k + 1 < N ∧ jsLt (cmndfRead buffer n (k + 1)) (cmndfRead buffer n k) = true) ∧
      ¬(descendMin buffer n N tau + 1 < N ∧
        jsLt (cmndfRead buffer n (descendMin buffer n N tau + 1))
          (cmndfRead buffer n (descendMin buffer n N tau)) = true) := by
  have hmem : (N - 1) ∈ List.range' tau (N - tau) := List.mem_range'_1.mpr (by omega)
  have hlast : (fun t =>
      !(decide (t + 1 < N) && jsLt (cmndfRead buffer n (t + 1)) (cmndfRead buffer n t)))
        (N - 1) = true := by
    simp only [Bool.not_eq_true']
    rw [Bool.and_eq_false_iff]
    left
    simp only [decide_eq_false_iff_not]
    omega
  rcases hfind : (List.range' tau (N - tau)).find? (fun t =>
      !(decide (t + 1 < N) && jsLt (cmndfRead buffer n (t + 1)) (cmndfRead buffer n t))) with
    _ | r
  · exfalso
    rw [List.find?_eq_none] at hfind
    exact absurd hlast (by simpa using hfind _ hmem)
  · obtain ⟨h1, h2, h3, h4⟩ := find?_range'_first _ _ _ _ hfind
    have hr : descendMin buffer n N tau = r := by
      rw [descendMin, hfind]; rfl
    rw [hr]
    refine ⟨h1, by omega, fun k hk1 hk2 => ?_, ?_⟩
    · have := h4 k hk1 hk2
      simp only [Bool.not_eq_false', Bool.and_eq_true, decide_eq_true_eq] at this
      exact this
    · intro hcon
      simp only [Bool.not_eq_true', Bool.and_eq_false_iff, decide_eq_false_iff_not] at h3
      rcases h3 with h3 | h3
      · exact h3 hcon.1
      · rw [hcon.2] at h3; simp at h3

/-- `jsLt x (some θ)` succeeds only on an actual value below `θ`. -/
lemma jsLt_some_iff (x : Option ℚ) (c : ℚ) :
    jsLt x (some c) = true ↔ ∃ v, x = some v ∧ v < c := by
  cases x with
  | none => simp [jsLt]
  | some v => simp [jsLt]

/-- Along the descent the cmndf values strictly decrease, so the value at
the returned index is a real number still below the threshold. -/
lemma descendMin_value (buffer : List ℚ) (n N tau : ℕ) (c : ℚ) (h : tau < N)
    (hv : jsLt (cmndfRead buffer n tau) (some c) = true) :
    ∃ v, cmndfRead buffer n (descendMin buffer n N tau) = some v ∧ v < c := by
  obtain ⟨h1, _, h3, _⟩ := descendMin_spec buffer n N tau h
  obtain ⟨v0, hv0, hv0c⟩ := (jsLt_some_iff _ _).mp hv
  have key : ∀ d, tau + d ≤ descendMin buffer n N tau →
      ∃ v, cmndfRead buffer n (tau + d) = some v ∧ v < c := by
    intro d
    induction d with
    | zero => intro _; exact ⟨v0, hv0, hv0c⟩
    | succ m ih =>
      intro hle
      obtain ⟨v, hv1, hv2⟩ := ih (by omega)
      have hchain := (h3 (tau + m) (by omega) (by omega)).2
      cases hread : cmndfRead buffer n (tau + m + 1) with
      | none => rw [hread, hv1] at hchain; simp [jsLt] at hchain
      | some w =>
        rw [hread, hv1] at hchain
        simp only [jsLt, decide_eq_true_eq] at hchain
        exact ⟨w, by rw [show tau + (m + 1) = tau + m + 1 by omega, hread], by linarith⟩
  have := key (descendMin buffer n N tau - tau) (by omega)
  rwa [show tau + (descendMin buffer n N tau - tau) = descendMin buffer n N tau by omega] at this

/-- Characterization of a successful threshold scan: there is a first
crossing `tc` of the threshold in the scanned range, and the result is the
descent from `tc`. -/
lemma absoluteThreshold_eq_some (buffer : List ℚ) (n N : ℕ) (threshold : ℚ)
    (minLag tau : ℕ) (h : absoluteThreshold buffer n N threshold minLag = some tau) :
    ∃ tc, minLag ≤ tc ∧ tc < N ∧
      jsLt (cmndfRead buffer n tc) (some threshold) = true ∧
      (∀ t, minLag ≤ t → t < tc → jsLt (cmndfRead buffer n t) (some threshold) = false) ∧
      tau = descendMin buffer n N tc := by
  rw [absoluteThreshold] at h
  rcases hfind : (List.range' minLag (N - minLag)).find? (fun t =>
      jsLt (cmndfRead buffer n t) (some threshold)) with _ | tc
  · rw [hfind] at h; cases h
  · rw [hfind] at h
    obtain ⟨h1, h2, h3, h4⟩ := find?_range'_first _ _ _ _ hfind
    cases h
    exact ⟨tc, h1, by omega, h3, fun t ht1 ht2 => h4 t ht1 ht2, rfl⟩

/-- The threshold scan fails exactly when no `tau` in the scanned range has
`cmndf[tau] < threshold` (in JS semantics). -/
lemma absoluteThreshold_eq_none (buffer : List ℚ) (n N : ℕ) (threshold : ℚ) (minLag : ℕ) :
    absoluteThreshold buffer n N threshold minLag = none ↔
      ∀ t, minLag ≤ t → t < N →
        jsLt (cmndfRead buffer n t) (some threshold) = false := by
  rw [absoluteThreshold, Option.map_eq_none', find?_range'_none]
  constructor
  · intro h t h1 h2
    exact h t h1 (by omega)
  · intro h t h1 h2
    exact h t h1 (by omega)

end YINDetector

namespace ChordRecognizer

/-- The rounded MIDI note number of a frequency:
`Math.round(69 + 12 * Math.log2(frequency / 440))`. -/
noncomputable def midiNoteRound (f : ℝ) : ℤ := round (69 + 12 * Real.logb 2 (f / 440))

/-- The centre frequency `(i / binCount) * nyquist` of spectral bin `i`. -/
noncomputable def binFrequency (binCount : ℕ) (sampleRate : ℚ) (i : ℕ) : ℝ :=
  ((i : ℝ) / binCount) * ((sampleRate : ℝ) / 2)

/-- Whether bin `i` contributes to pitch class `pc` in
`ChordRecognizer.calculateChromagram`: the source requires
`frequency > 0` and `0 ≤ pitchClass < 12` for
`pitchClass = Math.round(midiNote) % 12` with the JS (sign-of-dividend)
remainder.  That remainder is non-negative iff the rounded MIDI note is
non-negative or an exact negative multiple of 12 (where JS gives `-0`,
which passes both bounds and indexes bucket 0); in both cases it agrees
with the Euclidean `% 12` used here. -/
noncomputable def binContributes (binCount : ℕ) (sampleRate : ℚ) (i : ℕ) (pc : Fin 12) : Prop :=
  0 < binFrequency binCount sampleRate i ∧
    (0 ≤ midiNoteRound (binFrequency binCount sampleRate i) ∨
      midiNoteRound (binFrequency binCount sampleRate i) % 12 = 0) ∧
    (midiNoteRound (binFrequency binCount sampleRate i) % 12).toNat = pc.val

noncomputable instance (binCount : ℕ) (sampleRate : ℚ) (i : ℕ) (pc : Fin 12) :
    Decidable (binContributes binCount sampleRate i pc) := by
  unfold binContributes; infer_instance

/-- The un-normalized chromagram: each pitch-class bucket accumulates the
byte magnitudes of the bins mapped to it. -/
noncomputable def chromagramRaw (frequencyData : List ℕ) (sampleRate : ℚ) (pc : Fin 12) : ℚ :=
  ∑ i ∈ Finset.range frequencyData.length,
    if binContributes frequencyData.length sampleRate i pc
    then (frequencyData.getD i 0 : ℚ) else 0

/-- `Math.max(...chromagram)`: the largest of the 12 buckets. -/
noncomputable def chromagramMax (frequencyData : List ℕ) (sampleRate : ℚ) : ℚ :=
  (Finset.univ : Finset (Fin 12)).sup' Finset.univ_nonempty
    (chromagramRaw frequencyData sampleRate)

/-- `ChordRecognizer.calculateChromagram`: accumulate byte magnitudes into
pitch-class buckets, then normalize by the maximum bucket when positive. -/
noncomputable def calculateChromagram (frequencyData : List ℕ) (sampleRate : ℚ) : Fin 12 → ℚ :=
  fun pc =>
    if 0 < chromagramMax frequencyData sampleRate then
      chromagramRaw frequencyData sampleRate pc / chromagramMax frequencyData sampleRate
    else chromagramRaw frequencyData sampleRate pc

lemma chromagramRaw_nonneg (frequencyData : List ℕ) (sampleRate : ℚ) (pc : Fin 12) :
    0 ≤ chromagramRaw frequencyData sampleRate pc := by
  refine Finset.sum_nonneg fun i _ => ?_
  split
  · positivity
  · exact le_refl 0

lemma chromagramRaw_le_max (frequencyData : List ℕ) (sampleRate : ℚ) (pc : Fin 12) :
    chromagramRaw frequencyData sampleRate pc ≤ chromagramMax frequencyData sampleRate :=
  Finset.le_sup' _ (Finset.mem_univ pc)

/-- Every chromagram entry lies in `[0, 1]`. -/
lemma calculateChromagram_mem_unitInterval (frequencyData : List ℕ) (sampleRate : ℚ)
    (pc : Fin 12) :
    0 ≤ calculateChromagram frequencyData sampleRate pc ∧
      calculateChromagram frequencyData sampleRate pc ≤ 1 := by
  unfold calculateChromagram
  split
  · next hpos =>
    constructor
    · exact div_nonneg (chromagramRaw_nonneg _ _ _) hpos.le
    · rw [div_le_one hpos]
      exact chromagramRaw_le_max _ _ _
  · next hpos =>
    have h0 := chromagramRaw_nonneg frequencyData sampleRate pc
    have h1 := chromagramRaw_le_max frequencyData sampleRate pc
    push_neg at hpos
    constructor
    · exact h0
    · exact le_trans h1 (le_trans hpos zero_le_one)

end ChordRecognizer

namespace BPMDetector

/-- The record returned by `BPMDetector.detect`. -/
structure Result where
  bpm : Option ℤ
  confidence : ℝ
  beatPositions : List ℚ

/-- `hopSize = Math.floor(sampleRate * 0.01)` (10 ms).  Negative sample
rates (where JS would produce a negative hop) are not modelled; `toNat`
clamps them to 0. -/
def hopSize (sampleRate : ℚ) : ℕ := (⌊sampleRate * (1 / 100)⌋).toNat

/-- `windowSize = Math.floor(sampleRate * 0.04)` (40 ms). -/
def windowSize (sampleRate : ℚ) : ℕ := (⌊sampleRate * (4 / 100)⌋).toNat

/-- `numFrames = Math.floor((length - windowSize) / hopSize)`.  For sample
rates below 100 Hz the hop is 0 and JS divides by zero (then throws on
`new Float32Array(Infinity)`); that corner is not modelled (the rational
division by zero yields frame count 0 here), and the theorems below that
depend on the frame count assume `100 ≤ sampleRate`. -/
def numFramesZ (dataLen : ℕ) (sampleRate : ℚ) : ℤ :=
  ⌊((dataLen : ℚ) - windowSize sampleRate) / hopSize sampleRate⌋

/-- `BPMDetector.calculateEnergyEnvelope`: each frame is the RMS of its
40 ms window (the windowed sum stops early at the end of the data). -/
noncomputable def calculateEnergyEnvelope (data : List ℝ)
    (numFrames windowSize hopSize : ℕ) : List ℝ :=
  (List.range numFrames).map fun i =>
    Real.sqrt ((∑ j ∈ Finset.range windowSize,
      if i * hopSize + j < data.length
      then data.getD (i * hopSize + j) 0 * data.getD (i * hopSize + j) 0 else 0) /
        windowSize)

/-- `BPMDetector.differentiate`: half-wave rectified first difference,
with `diff[0] = 0`. -/
noncomputable def differentiate (envelope : List ℝ) : List ℝ :=
  (List.range envelope.length).map fun i =>
    if i = 0 then 0 else max 0 (envelope.getD i 0 - envelope.getD (i - 1) 0)

/-- `BPMDetector.autocorrelate`. -/
noncomputable def autocorrelate (data : List ℝ) : List ℝ :=
  (List.range data.length).map fun lag =>
    ∑ i ∈ Finset.range (data.length - lag), data.getD i 0 * data.getD (i + lag) 0

/-- `minLag = Math.floor((60 / maxBpm) * (sampleRate / hopSize))`. -/
def bpmMinLagZ (sampleRate maxBpm : ℚ) : ℤ :=
  ⌊(60 / maxBpm) * (sampleRate / (hopSize sampleRate : ℚ))⌋

/-- `maxLag = Math.ceil((60 / minBpm) * (sampleRate / hopSize))`. -/
def bpmMaxLagZ (sampleRate minBpm : ℚ) : ℤ :=
  ⌈(60 / minBpm) * (sampleRate / (hopSize sampleRate : ℚ))⌉

/-- The lags actually visited by the peak-search loop
`for (lag = minLag; lag <= maxLag && lag < autocorr.length; lag++)`, in
ascending order.  (Negative loop indices read `undefined` and can never
be accepted, so they are equivalent to starting at 0.) -/
def lagBand (acLen : ℕ) (sampleRate minBpm maxBpm : ℚ) : List ℕ :=
  (List.range acLen).filter fun lag =>
    decide (bpmMinLagZ sampleRate maxBpm ≤ (lag : ℤ)) &&
      decide ((lag : ℤ) ≤ bpmMaxLagZ sampleRate minBpm)

/-- The `isPeak` check: no strictly larger autocorrelation value in the
±2-frame neighborhood (clamped to the array bounds). -/
noncomputable def isLocalPeak (ac : List ℝ) (lag : ℕ) : Prop :=
  ∀ i ∈ Finset.Icc (lag - 2) (min (ac.length - 1) (lag + 2)),
    i ≠ lag → ¬(ac.getD lag 0 < ac.getD i 0)

noncomputable instance (ac : List ℝ) (lag : ℕ) : Decidable (isLocalPeak ac lag) := by
  unfold isLocalPeak; infer_instance

/-- One iteration of the peak-search loop: accept `lag` when its
autocorrelation value beats the current best and it is a local peak. -/
noncomputable def selectStep (ac : List ℝ) (st : ℝ × ℕ) (lag : ℕ) : ℝ × ℕ :=
  if st.1 < ac.getD lag 0 ∧ isLocalPeak ac lag then (ac.getD lag 0, lag) else st

/-- The peak-search loop: `(bestConfidence, bestLag)`, starting from
`(0, 0)`. -/
noncomputable def selectBestLag (ac : List ℝ) (lags : List ℕ) : ℝ × ℕ :=
  lags.foldl (selectStep ac) (0, 0)

/-- `BPMDetector.detectBeatPositions`: onset-curve maxima above 30% of the
global maximum, as timestamps in seconds.  (`Math.max(...diffEnvelope)` of
an empty list is `-Infinity`; the function is only invoked with
`bestLag > 0`, which forces a non-empty envelope, so the `getD 0` default
of `maximum` is never observed.) -/
noncomputable def detectBeatPositions (diffEnvelope : List ℝ) (hop : ℕ)
    (sampleRate : ℚ) : List ℚ :=
  let threshold := (3 / 10 : ℝ) * (WithBot.unbot' 0 diffEnvelope.maximum)
  ((List.range diffEnvelope.length).filter fun i =>
      decide (1 ≤ i) && decide (i + 1 < diffEnvelope.length) &&
      decide (threshold < diffEnvelope.getD i 0) &&
      decide (diffEnvelope.getD (i - 1) 0 < diffEnvelope.getD i 0) &&
      decide (diffEnvelope.getD (i + 1) 0 < diffEnvelope.getD i 0)).map
    fun i => ((i * hop : ℚ) / sampleRate)

/-- The energy envelope computed by `detect` for a given buffer. -/
noncomputable def onsetEnvelope (data : List ℝ) (sampleRate : ℚ) : List ℝ :=
  calculateEnergyEnvelope data (numFramesZ data.length sampleRate).toNat
    (windowSize sampleRate) (hopSize sampleRate)

/-- The onset curve (half-wave rectified envelope difference) of a buffer. -/
noncomputable def onsetCurve (data : List ℝ) (sampleRate : ℚ) : List ℝ :=
  differentiate (onsetEnvelope data sampleRate)

/-- The autocorrelation of the onset curve of a buffer. -/
noncomputable def onsetAutocorr (data : List ℝ) (sampleRate : ℚ) : List ℝ :=
  autocorrelate (onsetCurve data sampleRate)

/-- `BPMDetector.detect`.  A negative frame count makes the source throw a
`RangeError` in `new Float32Array(numFrames)`; this is the `Except.error`
branch. -/
noncomputable def detect (data : List ℝ) (sampleRate minBpm maxBpm : ℚ) :
    Except String Result :=
  if numFramesZ data.length sampleRate < 0 then
    Except.error "invalid typed array length"
  else
    let hop := hopSize sampleRate
    let autocorr := onsetAutocorr data sampleRate
    let sel := selectBestLag autocorr (lagBand autocorr.length sampleRate minBpm maxBpm)
    Except.ok
      { bpm :=
          if 0 < sel.2 then some (round ((60 : ℚ) / ((sel.2 * hop : ℚ) / sampleRate)))
          else none
        confidence :=
          min (sel.1 / (if autocorr.getD 0 0 = 0 then 1 else autocorr.getD 0 0)) 1
        beatPositions :=
          if 0 < sel.2 then detectBeatPositions (onsetCurve data sampleRate) hop sampleRate
          else [] }

/-- `detect` fails exactly on a negative frame count. -/
lemma detect_eq_error_iff (data : List ℝ) (sampleRate minBpm maxBpm : ℚ) :
    (∃ e, detect data sampleRate minBpm maxBpm = Except.error e) ↔
      numFramesZ data.length sampleRate < 0 := by
  rw [detect]
  split
  · next h => exact ⟨fun _ => h, fun _ => ⟨_, rfl⟩⟩
  · next h => simp [h]

/-- The successful shape of `detect`. -/
lemma detect_eq_ok (data : List ℝ) (sampleRate minBpm maxBpm : ℚ)
    (h : ¬numFramesZ data.length sampleRate < 0) :
    detect data sampleRate minBpm maxBpm = Except.ok
      { bpm :=
          if 0 < (selectBestLag (onsetAutocorr data sampleRate)
              (lagBand (onsetAutocorr data sampleRate).length sampleRate minBpm maxBpm)).2
          then some (round ((60 : ℚ) /
            (((selectBestLag (onsetAutocorr data sampleRate)
                (lagBand (onsetAutocorr data sampleRate).length sampleRate minBpm maxBpm)).2 *
              hopSize sampleRate : ℚ) / sampleRate)))
          else none
        confidence :=
          min ((selectBestLag (onsetAutocorr data sampleRate)
              (lagBand (onsetAutocorr data sampleRate).length sampleRate minBpm maxBpm)).1 /
            (if (onsetAutocorr data sampleRate).getD 0 0 = 0 then 1
             else (onsetAutocorr data sampleRate).getD 0 0)) 1
        beatPositions :=
          if 0 < (selectBestLag (onsetAutocorr data sampleRate)
              (lagBand (onsetAutocorr data sampleRate).length sampleRate minBpm maxBpm)).2
          then detectBeatPositions (onsetCurve data sampleRate) (hopSize sampleRate) sampleRate
          else [] } := by
  rw [detect, if_neg h]

end BPMDetector

/-- Reading a mapped range list: `((range n).map f).getD k d` is `f k` in
bounds and the default out of bounds. -/
lemma getD_map_range {α : Type} (n : ℕ) (f : ℕ → α) (d : α) (k : ℕ) :
    ((List.range n).map f).getD k d = if k < n then f k else d := by
  split
  · next h =>
    rw [List.getD_eq_getElem _ _ (by simpa using h)]
    simp
  · next h =>
    rw [List.getD_eq_default _ _ (by simpa using h)]

namespace BPMDetector

/-- The best value of the peak search never decreases. -/
lemma foldl_selectStep_fst_mono (ac : List ℝ) :
    ∀ (l : List ℕ) (st : ℝ × ℕ), st.1 ≤ (l.foldl (selectStep ac) st).1 := by
  intro l
  induction l with
  | nil => intro st; exact le_rfl
  | cons a t ih =>
    intro st
    simp only [List.foldl_cons]
    refine le_trans ?_ (ih (selectStep ac st a))
    rw [selectStep]
    split
    · next h => exact h.1.le
    · exact le_rfl

/-- The peak search either keeps its state or returns an accepted lag:
a member of the scanned band that is a local peak, whose value is the
final best value and strictly beats the initial one. -/
lemma foldl_selectStep_result (ac : List ℝ) :
    ∀ (l : List ℕ) (st : ℝ × ℕ),
      l.foldl (selectStep ac) st = st ∨
      ((l.foldl (selectStep ac) st).2 ∈ l ∧
        isLocalPeak ac (l.foldl (selectStep ac) st).2 ∧
        ac.getD (l.foldl (selectStep ac) st).2 0 = (l.foldl (selectStep ac) st).1 ∧
        st.1 < (l.foldl (selectStep ac) st).1) := by
  intro l
  induction l with
  | nil => intro st; exact Or.inl rfl
  | cons a t ih =>
    intro st
    simp only [List.foldl_cons]
    rcases ih (selectStep ac st a) with h | h
    · rw [h]
      rw [selectStep]
      split
      · next hc =>
        exact Or.inr ⟨List.mem_cons_self _ _, hc.2, rfl, hc.1⟩
      · exact Or.inl rfl
    · refine Or.inr ⟨List.mem_cons_of_mem _ ?_, h.2.1, h.2.2.1, lt_of_le_of_lt ?_ h.2.2.2⟩
      · exact h.1
      · rw [selectStep]
        split
        · next hc => exact hc.1.le
        · exact le_rfl

/-- Every local peak in the scanned band is bounded by the final best
value. -/
lemma foldl_selectStep_ub (ac : List ℝ) :
    ∀ (l : List ℕ) (st : ℝ × ℕ) (lag : ℕ), lag ∈ l → isLocalPeak ac lag →
      ac.getD lag 0 ≤ (l.foldl (selectStep ac) st).1 := by
  intro l
  induction l with
  | nil => intro st lag h; cases h
  | cons a t ih =>
    intro st lag hmem hpeak
    simp only [List.foldl_cons]
    rcases List.mem_cons.mp hmem with rfl | hmem
    · refine le_trans ?_ (foldl_selectStep_fst_mono ac t (selectStep ac st lag))
      rw [selectStep]
      split
      · exact le_rfl
      · next hc =>
        rcases not_and_or.mp hc with hc | hc
        · exact not_lt.mp hc
        · exact absurd hpeak hc
    · exact ih _ lag hmem hpeak

/-- Tie-breaking: among the local peaks attaining the final best value the
returned lag is the smallest (the loop keeps the first one in ascending
order because later ones must beat it strictly). -/
lemma foldl_selectStep_first (ac : List ℝ) :
    ∀ (l : List ℕ) (st : ℝ × ℕ), List.Pairwise (· ≤ ·) l → (∀ x ∈ l, st.2 ≤ x) →
      ∀ lag ∈ l, isLocalPeak ac lag → ac.getD lag 0 = (l.foldl (selectStep ac) st).1 →
        (l.foldl (selectStep ac) st).2 ≤ lag := by
  intro l
  induction l with
  | nil => intro st _ _ lag h; cases h
  | cons a t ih =>
    intro st hsort hge lag hmem hpeak hval
    simp only [List.foldl_cons] at *
    have hsort' : List.Pairwise (· ≤ ·) t := (List.pairwise_cons.mp hsort).2
    have hged : ∀ x ∈ t, a ≤ x := (List.pairwise_cons.mp hsort).1
    rcases List.mem_cons.mp hmem with rfl | hmem
    · -- lag is the head of the band
      rcases foldl_selectStep_result ac t (selectStep ac st lag) with h | h
      · rw [h, selectStep]
        split
        · exact le_rfl
        · exact hge lag (List.mem_cons_self _ _)
      · -- some later lag was accepted: it must strictly beat the value at lag
        exfalso
        have hstep : ac.getD lag 0 ≤ (selectStep ac st lag).1 := by
          rw [selectStep]
          split
          · exact le_rfl
          · next hc =>
            rcases not_and_or.mp hc with hc | hc
            · exact not_lt.mp hc
            · exact absurd hpeak hc
        rw [hval] at hstep
        exact absurd (lt_of_le_of_lt hstep h.2.2.2) (lt_irrefl _)
    · -- lag lies in the tail
      refine ih (selectStep ac st a) hsort' ?_ lag hmem hpeak hval
      intro x hx
      rw [selectStep]
      split
      · exact hged x hx
      · exact le_trans (hge x (List.mem_cons_of_mem _ hx)) le_rfl

/-- The lag band is sorted in ascending order. -/
lemma lagBand_pairwise (acLen : ℕ) (sampleRate minBpm maxBpm : ℚ) :
    List.Pairwise (· ≤ ·) (lagBand acLen sampleRate minBpm maxBpm) :=
  ((List.pairwise_lt_range acLen).filter _).imp le_of_lt

/-- Membership in the lag band. -/
lemma mem_lagBand (acLen : ℕ) (sampleRate minBpm maxBpm : ℚ) (lag : ℕ) :
    lag ∈ lagBand acLen sampleRate minBpm maxBpm ↔
      lag < acLen ∧ bpmMinLagZ sampleRate maxBpm ≤ (lag : ℤ) ∧
        (lag : ℤ) ≤ bpmMaxLagZ sampleRate minBpm := by
  unfold lagBand
  rw [List.mem_filter, List.mem_range]
  simp [and_assoc]

/-- Entry `0` of the autocorrelation is a sum of squares, hence
non-negative. -/
lemma autocorrelate_getD_zero_nonneg (data : List ℝ) :
    0 ≤ (autocorrelate data).getD 0 0 := by
  rw [autocorrelate, getD_map_range]
  split
  · refine Finset.sum_nonneg fun i _ => mul_self_nonneg _
  · exact le_rfl

/-- `autocorr[lag] ≤ autocorr[0]`: each lagged product is at most the
average of the two squares involved, and both square sums are partial sums
of the lag-0 energy. -/
lemma autocorrelate_getD_le_zero (data : List ℝ) (lag : ℕ) :
    (autocorrelate data).getD lag 0 ≤ (autocorrelate data).getD 0 0 := by
  rcases Nat.eq_zero_or_pos data.length with hlen | hlen
  · rw [autocorrelate, hlen, getD_map_range, getD_map_range]
    simp
  rw [autocorrelate, getD_map_range, getD_map_range, if_pos hlen]
  split
  · next hlag =>
    set d : ℕ → ℝ := fun i => data.getD i 0 with hd
    have hsq : ∀ m : ℕ, m ≤ data.length →
        ∑ i ∈ Finset.range m, d i * d i ≤ ∑ i ∈ Finset.range data.length, d i * d i := by
      intro m hm
      refine Finset.sum_le_sum_of_subset_of_nonneg
        (Finset.range_subset.mpr hm) fun i _ _ => mul_self_nonneg _
    have hshift : ∑ i ∈ Finset.range (data.length - lag), d (i + lag) * d (i + lag) ≤
        ∑ i ∈ Finset.range data.length, d i * d i := by
      have : ∑ i ∈ Finset.range (data.length - lag), d (i + lag) * d (i + lag) =
          ∑ j ∈ Finset.Ico lag (lag + (data.length - lag)), d j * d j := by
        rw [Finset.sum_Ico_eq_sum_range]
        simp only [Nat.add_sub_cancel_left]
        refine Finset.sum_congr rfl fun i _ => by rw [Nat.add_comm]
      rw [this]
      refine Finset.sum_le_sum_of_subset_of_nonneg ?_ fun i _ _ => mul_self_nonneg _
      intro j hj
      rw [Finset.mem_Ico] at hj
      rw [Finset.mem_range]
      omega
    calc ∑ i ∈ Finset.range (data.length - lag), d i * d (i + lag)
        ≤ ∑ i ∈ Finset.range (data.length - lag),
            (d i * d i + d (i + lag) * d (i + lag)) / 2 := by
          refine Finset.sum_le_sum fun i _ => ?_
          nlinarith [sq_nonneg (d i - d (i + lag))]
      _ = (∑ i ∈ Finset.range (data.length - lag), d i * d i) / 2 +
          (∑ i ∈ Finset.range (data.length - lag), d (i + lag) * d (i + lag)) / 2 := by
          rw [← Finset.sum_div, Finset.sum_add_distrib, add_div]
      _ ≤ (∑ i ∈ Finset.range data.length, d i * d i) / 2 +
          (∑ i ∈ Finset.range data.length, d i * d i) / 2 := by
          refine add_le_add ?_ ?_
          · exact (div_le_div_right (by norm_num)).mpr (hsq _ (Nat.sub_le _ _))
          · exact (div_le_div_right (by norm_num)).mpr hshift
      _ = ∑ i ∈ Finset.range data.length, d i * d i := by ring
      _ = ∑ i ∈ Finset.range (data.length - 0), d i * d i := by rw [Nat.sub_zero]
  · next hlag =>
    refine Finset.sum_nonneg fun i _ => mul_self_nonneg _

/-- Every read of an all-zero list yields 0. -/
lemma getD_eq_zero_of_zero (data : List ℝ) (hz : ∀ x ∈ data, x = 0) (i : ℕ) :
    data.getD i 0 = 0 := by
  rcases lt_or_le i data.length with h | h
  · rw [List.getD_eq_getElem _ _ h]
    exact hz _ (List.getElem_mem h)
  · exact List.getD_eq_default _ _ h

/-- The energy envelope of an all-zero buffer is all-zero. -/
lemma calculateEnergyEnvelope_zero (data : List ℝ) (hz : ∀ x ∈ data, x = 0)
    (numFrames windowSize hopSize : ℕ) :
    calculateEnergyEnvelope data numFrames windowSize hopSize =
      (List.range numFrames).map fun _ => (0 : ℝ) := by
  unfold calculateEnergyEnvelope
  refine List.map_congr_left fun i _ => ?_
  have : (∑ j ∈ Finset.range windowSize,
      if i * hopSize + j < data.length
      then data.getD (i * hopSize + j) 0 * data.getD (i * hopSize + j) 0 else 0) = 0 := by
    refine Finset.sum_eq_zero fun j _ => ?_
    rw [getD_eq_zero_of_zero data hz]
    simp
  rw [this, zero_div, Real.sqrt_zero]

/-- The onset curve of an all-zero envelope is all-zero. -/
lemma differentiate_zero (n : ℕ) :
    differentiate ((List.range n).map fun _ => (0 : ℝ)) =
      (List.range n).map fun _ => (0 : ℝ) := by
  unfold differentiate
  rw [List.length_map, List.length_range]
  refine List.map_congr_left fun i _ => ?_
  rw [getD_map_range, getD_map_range]
  split
  · rfl
  · simp

/-- The autocorrelation of an all-zero curve is all-zero. -/
lemma autocorrelate_zero (n : ℕ) :
    autocorrelate ((List.range n).map fun _ => (0 : ℝ)) =
      (List.range n).map fun _ => (0 : ℝ) := by
  unfold autocorrelate
  rw [List.length_map, List.length_range]
  refine List.map_congr_left fun lag _ => ?_
  refine Finset.sum_eq_zero fun i _ => ?_
  rw [getD_map_range]
  split <;> simp

/-- The peak search never leaves the initial state when no
autocorrelation value is positive. -/
lemma selectBestLag_of_nonpos (ac : List ℝ) (hac : ∀ lag, ac.getD lag 0 ≤ 0) :
    ∀ lags : List ℕ, selectBestLag ac lags = (0, 0) := by
  intro lags
  unfold selectBestLag
  induction lags with
  | nil => rfl
  | cons a t ih =>
    rw [List.foldl_cons, selectStep,
      if_neg (fun hcon => absurd hcon.1 (not_lt.mpr (hac a)))]
    exact ih

set_option maxHeartbeats 1000000 in
/-- `detect` on an all-zero buffer (long enough to frame) reports no BPM,
confidence 0 and no beats. -/
lemma detect_zero_data (data : List ℝ) (sampleRate minBpm maxBpm : ℚ)
    (hz : ∀ x ∈ data, x = 0) (h : ¬numFramesZ data.length sampleRate < 0) :
    detect data sampleRate minBpm maxBpm =
      Except.ok { bpm := none, confidence := 0, beatPositions := [] } := by
  have hac : onsetAutocorr data sampleRate =
      (List.range (numFramesZ data.length sampleRate).toNat).map fun _ => (0 : ℝ) := by
    rw [onsetAutocorr, onsetCurve, onsetEnvelope,
      calculateEnergyEnvelope_zero data hz, differentiate_zero, autocorrelate_zero]
  have hgd : ∀ lag, (onsetAutocorr data sampleRate).getD lag 0 ≤ 0 := by
    intro lag
    rw [hac, getD_map_range]
    split <;> exact le_rfl
  have hsel : selectBestLag (onsetAutocorr data sampleRate)
      (lagBand (onsetAutocorr data sampleRate).length sampleRate minBpm maxBpm) = (0, 0) :=
    selectBestLag_of_nonpos _ hgd _
  rw [detect_eq_ok data sampleRate minBpm maxBpm h]
  congr 1
  rw [hsel]
  have hac0 : (onsetAutocorr data sampleRate).getD 0 0 = 0 := by
    rw [hac, getD_map_range]
    split <;> rfl
  simp only [hac0, lt_irrefl, if_neg (lt_irrefl 0)]
  congr 1
  norm_num

end BPMDetector

namespace YINDetector

lemma differenceFunction_nonneg (buffer : List ℚ) (n tau : ℕ) :
    0 ≤ differenceFunction buffer n tau :=
  Finset.sum_nonneg fun _ _ => sq_nonneg _

lemma runningSum_nonneg (buffer : List ℚ) (n tau : ℕ) :
    0 ≤ runningSum buffer n tau :=
  Finset.sum_nonneg fun j _ => differenceFunction_nonneg buffer n j

/-- Every real (non-`NaN`) cmndf value is non-negative. -/
lemma cmndf_nonneg (buffer : List ℚ) (n tau : ℕ) (v : ℚ)
    (h : cmndf buffer n tau = some v) : 0 ≤ v := by
  rw [cmndf] at h
  split at h
  · cases h; exact zero_le_one
  · split at h
    · cases h
    · next hrs =>
      cases h
      have hpos : 0 < runningSum buffer n tau :=
        lt_of_le_of_ne (runningSum_nonneg buffer n tau) (Ne.symm hrs)
      exact div_nonneg
        (mul_nonneg (differenceFunction_nonneg buffer n tau) (Nat.cast_nonneg tau)) hpos.le

/-- `detect` returns no pitch when the threshold scan fails. -/
lemma detect_of_scan_none (cfg : Config) (buffer : List ℚ)
    (h : absoluteThreshold buffer (cmndfLen cfg buffer.length)
      (scanBound cfg buffer.length) cfg.threshold (minLagN cfg) = none) :
    detect cfg buffer = none := by
  rw [detect]
  rw [h]

/-- The shape of `detect` when the threshold scan returns a candidate. -/
lemma detect_of_scan_some (cfg : Config) (buffer : List ℚ) (tau : ℕ)
    (h : absoluteThreshold buffer (cmndfLen cfg buffer.length)
      (scanBound cfg buffer.length) cfg.threshold (minLagN cfg) = some tau) :
    detect cfg buffer =
      (if cfg.sampleRate / parabolicInterpolation buffer (cmndfLen cfg buffer.length) tau <
            cfg.minFrequency ∨
          cfg.maxFrequency <
            cfg.sampleRate / parabolicInterpolation buffer (cmndfLen cfg buffer.length) tau
        then none
        else some
          ⟨cfg.sampleRate / parabolicInterpolation buffer (cmndfLen cfg buffer.length) tau,
            1 - (cmndfRead buffer (cmndfLen cfg buffer.length) tau).getD 0⟩) := by
  rw [detect]
  rw [h]

/-- On an all-zero buffer every difference value vanishes. -/
lemma differenceFunction_zero (buffer : List ℚ) (hz : ∀ x ∈ buffer, x = 0)
    (n tau : ℕ) : differenceFunction buffer n tau = 0 := by
  refine Finset.sum_eq_zero fun j _ => ?_
  have hget : ∀ k, buffer.getD k 0 = 0 := by
    intro k
    rcases lt_or_le k buffer.length with h | h
    · rw [List.getD_eq_getElem _ _ h]
      exact hz _ (List.getElem_mem h)
    · exact List.getD_eq_default _ _ h
  rw [hget, hget]
  simp

/-- On an all-zero buffer the cmndf is 1 at lag 0 and `NaN` elsewhere. -/
lemma cmndf_zero_buffer (buffer : List ℚ) (hz : ∀ x ∈ buffer, x = 0) (n tau : ℕ) :
    cmndf buffer n tau = if tau = 0 then some 1 else none := by
  rw [cmndf]
  split
  · rfl
  · rw [if_pos]
    refine Finset.sum_eq_zero fun j _ => differenceFunction_zero buffer hz n j

/-- YIN on an all-zero (silent) buffer reports no pitch (for a positive
configured minimum frequency, as in any meaningful configuration). -/
lemma detect_zero_buffer (cfg : Config) (buffer : List ℚ)
    (hmin : 0 < cfg.minFrequency) (hz : ∀ x ∈ buffer, x = 0) :
    detect cfg buffer = none := by
  set n := cmndfLen cfg buffer.length with hn
  set N := scanBound cfg buffer.length with hN
  rcases hscan : absoluteThreshold buffer n N cfg.threshold (minLagN cfg) with _ | tau
  · exact detect_of_scan_none cfg buffer hscan
  · -- the only possible crossing is lag 0 (all other cmndf values are NaN)
    obtain ⟨tc, _, htcN, hlt, _, htau⟩ :=
      absoluteThreshold_eq_some buffer n N cfg.threshold (minLagN cfg) tau hscan
    obtain ⟨v, hv, _⟩ := (jsLt_some_iff _ _).mp hlt
    have htc0 : tc = 0 := by
      by_contra hne
      rw [cmndfRead] at hv
      split at hv
      · rw [cmndf_zero_buffer buffer hz, if_neg hne] at hv
        cases hv
      · cases hv
    have htauz : tau = 0 := by
      rw [htau, htc0]
      obtain ⟨h1, _, h3, _⟩ := descendMin_spec buffer n N 0 (htc0 ▸ htcN)
      by_contra hne
      have hchain := (h3 0 le_rfl (by omega)).2
      rw [cmndfRead] at hchain
      split at hchain
      · rw [cmndf_zero_buffer buffer hz, if_neg (by omega)] at hchain
        simp [jsLt] at hchain
      · simp [jsLt] at hchain
    rw [detect_of_scan_some cfg buffer tau (hn ▸ hN ▸ hscan), htauz, if_pos]
    left
    rw [parabolicInterpolation, if_pos (Or.inl rfl)]
    rw [Nat.cast_zero, div_zero]
    exact hmin

/-- A successful detection carries confidence `1 - v` for a real cmndf
value `v` with `0 ≤ v < threshold` (the value at the returned lag). -/
lemma detect_confidence (cfg : Config) (buffer : List ℚ) (r : PitchOutput)
    (h : detect cfg buffer = some r) :
    ∃ v : ℚ, 0 ≤ v ∧ v < cfg.threshold ∧ r.confidence = 1 - v := by
  rcases hscan : absoluteThreshold buffer (cmndfLen cfg buffer.length)
      (scanBound cfg buffer.length) cfg.threshold (minLagN cfg) with _ | tau
  · rw [detect_of_scan_none cfg buffer hscan] at h
    cases h
  · obtain ⟨tc, _, htcN, hlt, _, htau⟩ :=
      absoluteThreshold_eq_some _ _ _ _ _ tau hscan
    obtain ⟨v, hv, hvθ⟩ := descendMin_value buffer (cmndfLen cfg buffer.length)
      (scanBound cfg buffer.length) tc cfg.threshold htcN hlt
    have hvn : 0 ≤ v := by
      have := hv
      rw [cmndfRead] at this
      split at this
      · exact cmndf_nonneg _ _ _ _ this
      · cases this
    rw [detect_of_scan_some cfg buffer tau hscan] at h
    split at h
    · cases h
    · cases h
      refine ⟨v, hvn, hvθ, ?_⟩
      rw [← htau] at hv
      rw [hv]
      rfl

end YINDetector

namespace AudioAnalyzer

/-- `AudioAnalyzer.frequencyToNote`: round `12·log2(f/440)` semitones from
A4 to a MIDI index, derive octave (`Math.floor(noteIndex / 12) - 1`, a
floor division) and pitch-class name, and concatenate.  For the negative
MIDI indices of sub-audio frequencies JS would interpolate the string
`"undefined"`; that corner is not modelled (the Euclidean `% 12` used here
agrees with the JS remainder for all non-negative indices). -/
noncomputable def frequencyToNote (frequency : ℝ) : String :=
  let semitones : ℝ := 12 * Real.logb 2 (frequency / 440)
  let noteIndex : ℤ := round semitones + 69
  let octave : ℤ := Int.fdiv noteIndex 12 - 1
  let noteName := NOTE_NAMES.getD (noteIndex % 12).toNat ""
  noteName ++ toString octave

/-- `parseInt(note.slice(-1), 10)`: the last character parsed as a decimal
digit, `none` for `NaN` (no character or not a digit). -/
def parseOctaveChar (note : String) : Option ℕ :=
  match note.data.getLast? with
  | some c => if c.isDigit then some (c.toNat - 48) else none
  | none => none

/-- `NOTE_NAMES.indexOf(noteName)`, with `-1` when absent. -/
def noteNameIndex (noteName : String) : ℤ :=
  match NOTE_NAMES.findIdx? (fun s => s = noteName) with
  | some i => (i : ℤ)
  | none => -1

/-- `AudioAnalyzer.noteToFrequency` (static): octave from the final
character only, note name from the rest; throws on an unknown name or a
non-digit octave character. -/
noncomputable def noteToFrequency (note : String) : Except String ℝ :=
  let octave? := parseOctaveChar note
  let noteName : String := ⟨note.data.dropLast⟩
  let noteIndex : ℤ := noteNameIndex noteName
  if noteIndex = -1 ∨ octave? = none then
    Except.error ("Invalid note format: " ++ note)
  else
    let octave : ℤ := (octave?.getD 0 : ℤ)
    let semitonesFromA4 : ℤ := noteIndex + (octave - 4) * 12 - 9
    Except.ok (440 * (2 : ℝ) ^ ((semitonesFromA4 : ℝ) / 12))

/-- `AdvancedAnalysisResult` from the source. -/
structure AdvancedAnalysisResult where
  bpm : Option ℤ
  bpmConfidence : ℝ
  chord : Option ChordInfo
  pitchConfidence : ℚ
  chromagram : Fin 12 → ℚ
  beatPositions : List ℚ

/-- `AudioAnalyzer.performAdvancedAnalysis`: run the BPM detector on the
(mixed-down) buffer, the chromagram extraction and chord recognition on
the spectrum, and package the pitch confidence of the supplied pitch
result (`pitchResult?.confidence ?? 0`). -/
noncomputable def performAdvancedAnalysis (monoData : List ℝ)
    (sampleRate minBpm maxBpm : ℚ) (frequencyData : List ℕ)
    (pitchResult : Option YINDetector.PitchOutput) :
    Except String AdvancedAnalysisResult :=
  match BPMDetector.detect monoData sampleRate minBpm maxBpm with
  | Except.error e => Except.error e
  | Except.ok bpmResult =>
    let chromagram := ChordRecognizer.calculateChromagram frequencyData sampleRate
    Except.ok
      { bpm := bpmResult.bpm
        bpmConfidence := bpmResult.confidence
        chord := ChordRecognizer.recognize chromagram
        pitchConfidence := (pitchResult.map YINDetector.PitchOutput.confidence).getD 0
        chromagram := chromagram
        beatPositions := bpmResult.beatPositions }

end AudioAnalyzer

/-! ## Shared concrete evaluations -/

/-- The all-zero (silent) chromagram. -/
def silentChroma : Fin 12 → ℚ := fun _ => 0

/-- A chromagram with energy 2 concentrated at pitch classes C, E and G
(the C major template) and none elsewhere. -/
def cMajorLoudChroma : Fin 12 → ℚ :=
  fun i => if i.val = 0 ∨ i.val = 4 ∨ i.val = 7 then 2 else 0

set_option maxRecDepth 10000 in
set_option maxHeartbeats 2000000 in
/-- On the silent chromagram the recognizer returns C major with
confidence 0 (every template scores 0, the first strict improvement over
`-Infinity` wins). -/
lemma recognize_silent_eval :
    ChordRecognizer.recognize silentChroma =
      some ⟨"C", ChordType.major, "C", ["C", "E", "G"], 0⟩ := by
  norm_num +decide [ChordRecognizer.recognize, ChordRecognizer.chordPairs, CHORD_TEMPLATES,
    ChordRecognizer.recognizeStep, ChordRecognizer.matchTemplate, ChordRecognizer.buildChord,
    NOTE_NAMES, ChordRecognizer.formatChordType, Fin.sum_univ_succ, List.range_succ,
    silentChroma]

set_option maxRecDepth 10000 in
set_option maxHeartbeats 2000000 in
/-- On the concentrated C-major chromagram the recognizer returns C major
with confidence clamped to 1 (the raw score is 6). -/
lemma recognize_cMajorLoud_eval :
    ChordRecognizer.recognize cMajorLoudChroma =
      some ⟨"C", ChordType.major, "C", ["C", "E", "G"], 1⟩ := by
  norm_num +decide [ChordRecognizer.recognize, ChordRecognizer.chordPairs, CHORD_TEMPLATES,
    ChordRecognizer.recognizeStep, ChordRecognizer.matchTemplate, ChordRecognizer.buildChord,
    NOTE_NAMES, ChordRecognizer.formatChordType, Fin.sum_univ_succ, List.range_succ,
    WithBot.coe_lt_coe, WithBot.bot_lt_coe, cMajorLoudChroma,
    -WithBot.coe_ofNat, -WithBot.coe_one, -WithBot.coe_zero, -Nat.cast_ofNat]

/-- Any element of a `foldl max` starting from `⊥` bounds the result from
below. -/
lemma le_foldl_max (l : List (WithBot ℚ)) :
    ∀ (init : WithBot ℚ), (init ≤ l.foldl max init) ∧
      ∀ x ∈ l, x ≤ l.foldl max init := by
  induction l with
  | nil => intro init; exact ⟨le_rfl, fun x h => absurd h (List.not_mem_nil x)⟩
  | cons a t ih =>
    intro init
    rw [List.foldl_cons]
    refine ⟨le_trans (le_max_left _ _) (ih (max init a)).1, fun x hx => ?_⟩
    rcases List.mem_cons.mp hx with rfl | hx
    · exact le_trans (le_max_right _ _) (ih (max init x)).1
    · exact (ih (max init a)).2 x hx

/-- Each template score bounds the best template score from below. -/
lemma matchTemplate_le_bestTemplateScore (chromagram : Fin 12 → ℚ)
    (p : ℕ × String × List ℕ) (hp : p ∈ ChordRecognizer.chordPairs) :
    ((ChordRecognizer.matchTemplate chromagram p.1 p.2.2 : ℚ) : WithBot ℚ) ≤
      ChordRecognizer.bestTemplateScore chromagram := by
  refine (le_foldl_max _ ⊥).2 _ ?_
  exact List.mem_map_of_mem _ hp

/-! ## Claim C1 -/

/-- **C1, counterexample.**  On the chromagram with energy 2 at pitch
classes C, E, G the best template-match score is at least 6, yet the
returned confidence is 1, not `score / 3 ≥ 2`: the source clamps the
confidence with `Math.min(score / 3, 1)`, so the claim that the
confidence equals `score / 3` unclamped (able to exceed 1) is false. -/
theorem C1_counterexample :
    (ChordRecognizer.recognize cMajorLoudChroma).map ChordInfo.confidence = some 1 ∧
    ((6 : ℚ) : WithBot ℚ) ≤ ChordRecognizer.bestTemplateScore cMajorLoudChroma ∧
    ∀ s : ℚ, ChordRecognizer.bestTemplateScore cMajorLoudChroma = (s : WithBot ℚ) →
      s / 3 ≠ 1 := by
  refine ⟨by rw [recognize_cMajorLoud_eval]; rfl, ?_, ?_⟩
  · have h := matchTemplate_le_bestTemplateScore cMajorLoudChroma
      (0, "major", [0, 4, 7]) (by decide)
    have heval : ChordRecognizer.matchTemplate cMajorLoudChroma 0 [0, 4, 7] = 6 := by
      norm_num +decide [ChordRecognizer.matchTemplate, Fin.sum_univ_succ, cMajorLoudChroma]
    rw [heval] at h
    exact h
  · intro s hs h
    have h6 : ((6 : ℚ) : WithBot ℚ) ≤ (s : WithBot ℚ) := by
      have := matchTemplate_le_bestTemplateScore cMajorLoudChroma
        (0, "major", [0, 4, 7]) (by decide)
      have heval : ChordRecognizer.matchTemplate cMajorLoudChroma 0 [0, 4, 7] = 6 := by
        norm_num +decide [ChordRecognizer.matchTemplate, Fin.sum_univ_succ, cMajorLoudChroma]
      rw [heval, hs] at this
      exact this
    rw [WithBot.coe_le_coe] at h6
    have : (2 : ℚ) ≤ s / 3 := by linarith
    rw [h] at this
    norm_num at this

/-- **C1, amended.**  For every chromagram, the `ChordInfo` returned by
the chord recognizer has confidence `min (score / 3) 1` where `score` is
the best template-match score: the value is clamped above at 1 (it can
never exceed 1) but is not clamped below. -/
theorem C1_confidence_clamped (chromagram : Fin 12 → ℚ) (ch : ChordInfo)
    (h : ChordRecognizer.recognize chromagram = some ch) :
    (∃ s : ℚ, ChordRecognizer.bestTemplateScore chromagram = (s : WithBot ℚ) ∧
      ch.confidence = min (s / 3) 1) ∧ ch.confidence ≤ 1 := by
  obtain ⟨-, s, hs, hconf⟩ := ChordRecognizer.recognize_eq_some chromagram ch h
  exact ⟨⟨s, hs, hconf⟩, hconf ▸ min_le_right _ _⟩

/-- Witness for `C1_confidence_clamped` at the concentrated chromagram. -/
theorem C1_confidence_clamped_witness :
    ChordRecognizer.recognize cMajorLoudChroma =
      some ⟨"C", ChordType.major, "C", ["C", "E", "G"], 1⟩ ∧
    ((∃ s : ℚ, ChordRecognizer.bestTemplateScore cMajorLoudChroma = (s : WithBot ℚ) ∧
      (1 : ℚ) = min (s / 3) 1) ∧ (1 : ℚ) ≤ 1) :=
  ⟨recognize_cMajorLoud_eval,
    C1_confidence_clamped cMajorLoudChroma _ recognize_cMajorLoud_eval⟩

/-! ## Claim C2 -/

/-- **C2, code evidence.**  Constructing the analyzer with the inverted
range `minFrequency = 5000 > maxFrequency = 50` succeeds and stores both
values unchanged, and `setOptions` likewise accepts a YIN threshold of 2
(outside (0,1)) and an inverted BPM range: neither the constructor nor
`setOptions` validates anything, so no configuration error is ever raised
at configuration time. -/
theorem C2_no_config_validation :
    (AudioAnalyzer.resolveOptions
      { minFrequency := some 5000, maxFrequency := some 50 }).minFrequency = 5000 ∧
    (AudioAnalyzer.resolveOptions
      { minFrequency := some 5000, maxFrequency := some 50 }).maxFrequency = 50 ∧
    ¬((AudioAnalyzer.resolveOptions
        { minFrequency := some 5000, maxFrequency := some 50 }).minFrequency <
      (AudioAnalyzer.resolveOptions
        { minFrequency := some 5000, maxFrequency := some 50 }).maxFrequency) ∧
    (AudioAnalyzer.setOptions (AudioAnalyzer.resolveOptions {})
      { yinThreshold := some 2, minBpm := some 200, maxBpm := some 100 }).yinThreshold = 2 ∧
    (AudioAnalyzer.setOptions (AudioAnalyzer.resolveOptions {})
      { yinThreshold := some 2, minBpm := some 200, maxBpm := some 100 }).minBpm = 200 ∧
    (AudioAnalyzer.setOptions (AudioAnalyzer.resolveOptions {})
      { yinThreshold := some 2, minBpm := some 200, maxBpm := some 100 }).maxBpm = 100 := by
  refine ⟨rfl, rfl, ?_, rfl, rfl, rfl⟩
  show ¬((5000 : ℚ) < 50)
  norm_num

/-! ## Claim C3 -/

/-- **C3, counterexample.**  On the empty window the volume computation
does not yield 0: the source computes `Math.sqrt(0 / 0) = NaN` (modelled
as `none`), so the claim that every degenerate window yields volume 0 is
false. -/
theorem C3_counterexample :
    AudioAnalyzer.calculateVolume ([] : List ℝ) = none ∧
    AudioAnalyzer.calculateVolume ([] : List ℝ) ≠ some 0 := by
  constructor <;> simp [AudioAnalyzer.calculateVolume]

/-- **C3, amended.**  For every *non-empty* all-zero window the volume is
0 and the YIN detector returns none (given a positive configured minimum
frequency); for every all-zero buffer long enough to frame, the BPM
detector returns no BPM, confidence 0 and no beats; but the chord
recognizer does *not* return the "none" variant on the silent chromagram:
it returns a C major chord with confidence 0 (and the empty window's
volume is NaN, not 0). -/
theorem C3_amended :
    (∀ data : List ℝ, data ≠ [] → (∀ x ∈ data, x = 0) →
      AudioAnalyzer.calculateVolume data = some 0) ∧
    (∀ (cfg : YINDetector.Config) (buffer : List ℚ), 0 < cfg.minFrequency →
      (∀ x ∈ buffer, x = 0) → YINDetector.detect cfg buffer = none) ∧
    (∀ (data : List ℝ) (sampleRate minBpm maxBpm : ℚ), (∀ x ∈ data, x = 0) →
      ¬BPMDetector.numFramesZ data.length sampleRate < 0 →
      BPMDetector.detect data sampleRate minBpm maxBpm =
        Except.ok { bpm := none, confidence := 0, beatPositions := [] }) ∧
    (ChordRecognizer.recognize silentChroma ≠ none ∧
      ∀ ch, ChordRecognizer.recognize silentChroma = some ch → ch.confidence = 0) := by
  refine ⟨?_, ?_, ?_, ?_⟩
  · intro data hne hz
    rw [AudioAnalyzer.calculateVolume, if_neg (by simpa using hne)]
    have hsum : (data.map fun x => x * x).sum = 0 := by
      refine List.sum_eq_zero fun y hy => ?_
      obtain ⟨x, hx, rfl⟩ := List.mem_map.mp hy
      rw [hz x hx, mul_zero]
    simp [hsum]
  · exact fun cfg buffer hmin hz => YINDetector.detect_zero_buffer cfg buffer hmin hz
  · exact fun data sr minB maxB hz h => BPMDetector.detect_zero_data data sr minB maxB hz h
  · constructor
    · rw [recognize_silent_eval]
      exact Option.some_ne_none _
    · intro ch hch
      rw [recognize_silent_eval] at hch
      cases hch
      rfl

/-- Witness for `C3_amended` at concrete degenerate inputs. -/
theorem C3_amended_witness :
    AudioAnalyzer.calculateVolume [(0 : ℝ), 0] = some 0 ∧
    YINDetector.detect ⟨8, 1 / 10, 1, 4⟩ [0, 0, 0, 0] = none ∧
    BPMDetector.detect (List.replicate 8 (0 : ℝ)) 100 60 180 =
      Except.ok { bpm := none, confidence := 0, beatPositions := [] } := by
  refine ⟨C3_amended.1 _ (by simp) (by intro x hx; simp at hx; exact hx),
    C3_amended.2.1 ⟨8, 1 / 10, 1, 4⟩ _ (by norm_num)
      (by intro x hx; simp at hx; exact hx),
    C3_amended.2.2.1 _ 100 60 180 (fun x hx => List.eq_of_mem_replicate hx) ?_⟩
  rw [List.length_replicate]
  norm_num [BPMDetector.numFramesZ, BPMDetector.windowSize, BPMDetector.hopSize]

/-! ## Claim C4 -/

/-- **C4.**  The YIN detector returns no pitch when no lag in the scanned
range `[minLag, maxLag)` has CMNDF below the threshold; a successful
detection stems from the first threshold crossing, descended to its local
minimum `tau`, and reports frequency `sampleRate / refinedTau` (parabolic
refinement) with confidence `1 - cmndf[tau]`, the frequency lying inside
`[minFrequency, maxFrequency]`; and whenever the refined frequency falls
outside that range the result is none instead. -/
theorem C4_yin_detect_spec :
    ∀ (cfg : YINDetector.Config) (buffer : List ℚ),
      ((∀ tau, YINDetector.minLagN cfg ≤ tau →
          tau < YINDetector.scanBound cfg buffer.length →
          YINDetector.jsLt
            (YINDetector.cmndfRead buffer (YINDetector.cmndfLen cfg buffer.length) tau)
            (some cfg.threshold) = false) →
        YINDetector.detect cfg buffer = none) ∧
      (∀ r, YINDetector.detect cfg buffer = some r →
        ∃ tau tc,
          YINDetector.absoluteThreshold buffer (YINDetector.cmndfLen cfg buffer.length)
              (YINDetector.scanBound cfg buffer.length) cfg.threshold
              (YINDetector.minLagN cfg) = some tau ∧
          YINDetector.minLagN cfg ≤ tc ∧ tc < YINDetector.scanBound cfg buffer.length ∧
          YINDetector.jsLt
            (YINDetector.cmndfRead buffer (YINDetector.cmndfLen cfg buffer.length) tc)
            (some cfg.threshold) = true ∧
          (∀ t, YINDetector.minLagN cfg ≤ t → t < tc →
            YINDetector.jsLt
              (YINDetector.cmndfRead buffer (YINDetector.cmndfLen cfg buffer.length) t)
              (some cfg.threshold) = false) ∧
          tau = YINDetector.descendMin buffer (YINDetector.cmndfLen cfg buffer.length)
            (YINDetector.scanBound cfg buffer.length) tc ∧
          r.frequency = cfg.sampleRate / YINDetector.parabolicInterpolation buffer
            (YINDetector.cmndfLen cfg buffer.length) tau ∧
          r.confidence = 1 -
            (YINDetector.cmndfRead buffer (YINDetector.cmndfLen cfg buffer.length) tau).getD 0 ∧
          ¬(r.frequency < cfg.minFrequency ∨ cfg.maxFrequency < r.frequency)) ∧
      (∀ tau, YINDetector.absoluteThreshold buffer (YINDetector.cmndfLen cfg buffer.length)
          (YINDetector.scanBound cfg buffer.length) cfg.threshold
          (YINDetector.minLagN cfg) = some tau →
        (cfg.sampleRate / YINDetector.parabolicInterpolation buffer
            (YINDetector.cmndfLen cfg buffer.length) tau < cfg.minFrequency ∨
          cfg.maxFrequency < cfg.sampleRate / YINDetector.parabolicInterpolation buffer
            (YINDetector.cmndfLen cfg buffer.length) tau) →
        YINDetector.detect cfg buffer = none) := by
  intro cfg buffer
  refine ⟨?_, ?_, ?_⟩
  · intro hfail
    refine YINDetector.detect_of_scan_none cfg buffer ?_
    rw [YINDetector.absoluteThreshold_eq_none]
    exact hfail
  · intro r hr
    rcases hscan : YINDetector.absoluteThreshold buffer (YINDetector.cmndfLen cfg buffer.length)
        (YINDetector.scanBound cfg buffer.length) cfg.threshold
        (YINDetector.minLagN cfg) with _ | tau
    · rw [YINDetector.detect_of_scan_none cfg buffer hscan] at hr
      cases hr
    · obtain ⟨tc, h1, h2, h3, h4, h5⟩ :=
        YINDetector.absoluteThreshold_eq_some _ _ _ _ _ tau hscan
      rw [YINDetector.detect_of_scan_some cfg buffer tau hscan] at hr
      split at hr
      · cases hr
      · next hrange =>
        cases hr
        exact ⟨tau, tc, rfl, h1, h2, h3, h4, h5, rfl, rfl, hrange⟩
  · intro tau hscan hout
    rw [YINDetector.detect_of_scan_some cfg buffer tau hscan, if_pos hout]

/-- Witness for `C4_yin_detect_spec`: on a silent 8-sample window with
sample rate 8, threshold 0.1 and frequency range [1, 4], no scanned lag
crosses the threshold (all cmndf values are `NaN`), so the detector
reports no pitch. -/
theorem C4_yin_detect_spec_witness :
    YINDetector.detect ⟨8, 1 / 10, 1, 4⟩ [0, 0, 0, 0, 0, 0, 0, 0] = none := by
  refine (C4_yin_detect_spec ⟨8, 1 / 10, 1, 4⟩ [0, 0, 0, 0, 0, 0, 0, 0]).1 ?_
  have hN : YINDetector.scanBound ⟨8, 1 / 10, 1, 4⟩
      ([(0 : ℚ), 0, 0, 0, 0, 0, 0, 0].length) = 4 := by
    norm_num [YINDetector.scanBound, YINDetector.maxLagQ, min_def]
    all_goals decide
  have hn : YINDetector.cmndfLen ⟨8, 1 / 10, 1, 4⟩
      ([(0 : ℚ), 0, 0, 0, 0, 0, 0, 0].length) = 4 := by
    norm_num [YINDetector.cmndfLen, YINDetector.maxLagQ, min_def]
    all_goals decide
  have hmin : YINDetector.minLagN ⟨8, 1 / 10, 1, 4⟩ = 2 := by
    norm_num [YINDetector.minLagN]
    all_goals decide
  intro tau h1 h2
  rw [hN] at h2
  rw [hmin] at h1
  rw [hn]
  have hz : ∀ x ∈ [(0 : ℚ), 0, 0, 0, 0, 0, 0, 0], x = 0 := by
    intro x hx; simp at hx; exact hx
  rw [YINDetector.cmndfRead, if_pos h2,
    YINDetector.cmndf_zero_buffer _ hz, if_neg (by omega)]
  rfl

/-! ## Claim C7 -/

/-- **C7, counterexample.**  On the empty buffer the BPM detector does
not run to completion: the frame count is negative
(`Math.floor((0 - 1764) / 441) = -4` at 44100 Hz) and
`new Float32Array(-4)` throws a `RangeError`, so the claim that BPM
detection never raises a runtime exception is false. -/
theorem C7_counterexample :
    BPMDetector.detect ([] : List ℝ) 44100 60 180 =
      Except.error "invalid typed array length" := by
  rw [BPMDetector.detect, if_pos]
  rw [BPMDetector.numFramesZ]
  norm_num [BPMDetector.windowSize, BPMDetector.hopSize,
    show Int.toNat 1764 = 1764 from rfl, show Int.toNat 441 = 441 from rfl]

/-- **C7, amended.**  (The YIN pitch path is embedded as a total function
— it contains no throwing construct for any buffer length, including odd
ones.)  For every sample rate of at least 100 Hz, the BPM detector throws
a `RangeError` exactly on buffers shorter than the 40 ms analysis window
(negative frame count in `new Float32Array`), and on all other buffers it
runs to completion and returns a result. -/
theorem C7_amended :
    ∀ (data : List ℝ) (sampleRate minBpm maxBpm : ℚ), 100 ≤ sampleRate →
      ((data.length < BPMDetector.windowSize sampleRate →
        BPMDetector.detect data sampleRate minBpm maxBpm =
          Except.error "invalid typed array length") ∧
       (BPMDetector.windowSize sampleRate ≤ data.length →
        ∃ r, BPMDetector.detect data sampleRate minBpm maxBpm = Except.ok r)) := by
  intro data sampleRate minBpm maxBpm hsr
  have hhop : 1 ≤ BPMDetector.hopSize sampleRate := by
    rw [BPMDetector.hopSize]
    have : (1 : ℤ) ≤ ⌊sampleRate * (1 / 100)⌋ := by
      rw [Int.le_floor]
      push_cast
      linarith
    omega
  constructor
  · intro hlen
    rw [BPMDetector.detect, if_pos]
    rw [BPMDetector.numFramesZ]
    refine Int.floor_lt.mpr ?_
    push_cast
    refine div_neg_of_neg_of_pos ?_ (by exact_mod_cast hhop)
    have : (data.length : ℚ) < BPMDetector.windowSize sampleRate := by exact_mod_cast hlen
    linarith
  · intro hlen
    refine ⟨_, BPMDetector.detect_eq_ok data sampleRate minBpm maxBpm ?_⟩
    rw [BPMDetector.numFramesZ, not_lt]
    refine Int.le_floor.mpr ?_
    push_cast
    refine div_nonneg ?_ (by positivity)
    have : (BPMDetector.windowSize sampleRate : ℚ) ≤ data.length := by exact_mod_cast hlen
    linarith

/-- Witness for `C7_amended`: the empty buffer at 48000 Hz is shorter
than the 1920-sample window, so the detector throws. -/
theorem C7_amended_witness :
    (100 : ℚ) ≤ 48000 ∧
    BPMDetector.detect ([] : List ℝ) 48000 60 180 =
      Except.error "invalid typed array length" := by
  refine ⟨by norm_num, (C7_amended [] 48000 60 180 (by norm_num)).1 ?_⟩
  norm_num [BPMDetector.windowSize]

/-! ## Claim C6 -/

set_option maxHeartbeats 1000000 in
/-- The confidence reported by a successful BPM detection lies in `[0, 1]`:
the best value is non-negative (it starts at 0 and only increases), the
denominator `autocorr[0] || 1` is positive, and the quotient is clamped
at 1. -/
lemma bpm_detect_ok_confidence_bounds (data : List ℝ) (sampleRate minBpm maxBpm : ℚ)
    (r : BPMDetector.Result) (h : BPMDetector.detect data sampleRate minBpm maxBpm = Except.ok r) :
    0 ≤ r.confidence ∧ r.confidence ≤ 1 := by
  by_cases hneg : BPMDetector.numFramesZ data.length sampleRate < 0
  · rw [BPMDetector.detect, if_pos hneg] at h
    cases h
  · rw [BPMDetector.detect_eq_ok data sampleRate minBpm maxBpm hneg] at h
    cases h
    constructor
    · have hsel : (0 : ℝ) ≤ (BPMDetector.selectBestLag (BPMDetector.onsetAutocorr data sampleRate)
          (BPMDetector.lagBand (BPMDetector.onsetAutocorr data sampleRate).length
            sampleRate minBpm maxBpm)).1 :=
        BPMDetector.foldl_selectStep_fst_mono _ _ (0, 0)
      refine le_min ?_ zero_le_one
      refine div_nonneg hsel ?_
      split
      · exact zero_le_one
      · next hne =>
        exact lt_of_le_of_ne (BPMDetector.autocorrelate_getD_zero_nonneg _)
          (Ne.symm hne) |>.le
    · exact min_le_right _ _

set_option maxRecDepth 4000 in
/-- **C6.**  For every `AdvancedResult` produced by advanced analysis
(with the pitch result coming from the YIN detector, under the spec's
configuration invariant `threshold ≤ 1`): all 12 chromagram values lie in
[0, 1], the BPM confidence lies in [0, 1], the pitch confidence lies in
[0, 1], and any returned chord was built from one of the declared
(root, template) pairs — its root/quality pair comes from the six
declared templates. -/
theorem C6_advanced_result_invariants :
    ∀ (monoData : List ℝ) (sampleRate minBpm maxBpm : ℚ) (frequencyData : List ℕ)
      (cfg : YINDetector.Config) (wave : List ℚ) (res : AudioAnalyzer.AdvancedAnalysisResult),
      cfg.threshold ≤ 1 →
      AudioAnalyzer.performAdvancedAnalysis monoData sampleRate minBpm maxBpm frequencyData
        (YINDetector.detect cfg wave) = Except.ok res →
      ((∀ pc, 0 ≤ res.chromagram pc ∧ res.chromagram pc ≤ 1) ∧
       (0 ≤ res.bpmConfidence ∧ res.bpmConfidence ≤ 1) ∧
       (0 ≤ res.pitchConfidence ∧ res.pitchConfidence ≤ 1) ∧
       (∀ ch, res.chord = some ch →
         ∃ root tname intervals,
           (root, tname, intervals) ∈ ChordRecognizer.chordPairs ∧
           ch = ChordRecognizer.buildChord
             (ChordRecognizer.calculateChromagram frequencyData sampleRate)
             root tname intervals)) := by
  intro monoData sampleRate minBpm maxBpm frequencyData cfg wave res hθ hok
  rw [AudioAnalyzer.performAdvancedAnalysis] at hok
  rcases hbpm : BPMDetector.detect monoData sampleRate minBpm maxBpm with e | bpmResult
  · rw [hbpm] at hok
    cases hok
  · rw [hbpm] at hok
    cases hok
    refine ⟨?_, ?_, ?_, ?_⟩
    · exact fun pc =>
        ChordRecognizer.calculateChromagram_mem_unitInterval frequencyData sampleRate pc
    · exact bpm_detect_ok_confidence_bounds monoData sampleRate minBpm maxBpm bpmResult hbpm
    · rcases hdet : YINDetector.detect cfg wave with _ | r
      · simp
      · obtain ⟨v, hv0, hvθ, hconf⟩ := YINDetector.detect_confidence cfg wave r hdet
        simp only [Option.map_some', Option.getD_some]
        constructor
        · rw [hconf]; linarith
        · rw [hconf]; linarith
    · intro ch hch
      obtain ⟨⟨p, hp, hpe⟩, -⟩ :=
        ChordRecognizer.recognize_eq_some
          (ChordRecognizer.calculateChromagram frequencyData sampleRate) ch hch
      exact ⟨p.1, p.2.1, p.2.2, hp, hpe⟩

/-- Witness for `C6_advanced_result_invariants` on a silent 4-sample
buffer at 100 Hz (frame count 0), an all-zero 2-bin spectrum, and the YIN
result of a silent window. -/
theorem C6_advanced_result_invariants_witness :
    (1 / 10 : ℚ) ≤ 1 ∧
    ∃ res, AudioAnalyzer.performAdvancedAnalysis (List.replicate 4 (0 : ℝ)) 100 60 180 [0, 0]
        (YINDetector.detect ⟨8, 1 / 10, 1, 4⟩ [0, 0, 0, 0]) = Except.ok res ∧
      ((∀ pc, 0 ≤ res.chromagram pc ∧ res.chromagram pc ≤ 1) ∧
       (0 ≤ res.bpmConfidence ∧ res.bpmConfidence ≤ 1) ∧
       (0 ≤ res.pitchConfidence ∧ res.pitchConfidence ≤ 1) ∧
       (∀ ch, res.chord = some ch →
         ∃ root tname intervals,
           (root, tname, intervals) ∈ ChordRecognizer.chordPairs ∧
           ch = ChordRecognizer.buildChord
             (ChordRecognizer.calculateChromagram [0, 0] 100) root tname intervals)) := by
  have hz4 : ∀ x ∈ [(0 : ℚ), 0, 0, 0], x = 0 := by intro x hx; simp at hx; exact hx
  have hyin : YINDetector.detect ⟨8, 1 / 10, 1, 4⟩ [0, 0, 0, 0] = none :=
    YINDetector.detect_zero_buffer _ _ (by norm_num) hz4
  have hframes : ¬BPMDetector.numFramesZ (List.replicate 4 (0 : ℝ)).length 100 < 0 := by
    rw [List.length_replicate]
    norm_num [BPMDetector.numFramesZ, BPMDetector.windowSize, BPMDetector.hopSize,
      show Int.toNat 4 = 4 from rfl, show Int.toNat 1 = 1 from rfl]
  have hbpm : BPMDetector.detect (List.replicate 4 (0 : ℝ)) 100 60 180 =
      Except.ok { bpm := none, confidence := 0, beatPositions := [] } :=
    BPMDetector.detect_zero_data _ _ _ _ (fun x hx => List.eq_of_mem_replicate hx) hframes
  have hok : AudioAnalyzer.performAdvancedAnalysis (List.replicate 4 (0 : ℝ)) 100 60 180 [0, 0]
      (YINDetector.detect ⟨8, 1 / 10, 1, 4⟩ [0, 0, 0, 0]) = Except.ok
        { bpm := none
          bpmConfidence := 0
          chord := ChordRecognizer.recognize (ChordRecognizer.calculateChromagram [0, 0] 100)
          pitchConfidence := 0
          chromagram := ChordRecognizer.calculateChromagram [0, 0] 100
          beatPositions := [] } := by
    rw [hyin, AudioAnalyzer.performAdvancedAnalysis, hbpm]
    rfl
  exact ⟨by norm_num, _, hok,
    C6_advanced_result_invariants (List.replicate 4 (0 : ℝ)) 100 60 180 [0, 0]
      ⟨8, 1 / 10, 1, 4⟩ [0, 0, 0, 0] _ (by norm_num) hok⟩

/-! ## Claim C9 -/

/-- **C9.**  For every 12-element chromagram the chord recognizer returns
a chord — its "none" branch is unreachable, every template score being a
real number strictly greater than the initial `-Infinity` best score —
and on the fully silent chromagram the result is root C with the first
template (major) and confidence 0. -/
theorem C9_recognize_never_none :
    (∀ chromagram : Fin 12 → ℚ, ∃ ch, ChordRecognizer.recognize chromagram = some ch) ∧
    ChordRecognizer.recognize silentChroma =
      some ⟨"C", ChordType.major, "C", ["C", "E", "G"], 0⟩ := by
  constructor
  · intro c
    have h := ChordRecognizer.recognize_isSome c
    exact ⟨(ChordRecognizer.recognize c).get h, (Option.some_get h).symm⟩
  · exact recognize_silent_eval

/-! ## Claim C10 -/

/-- The last element of a list is a member of it. -/
lemma mem_of_getLast?_eq_some {α : Type} {l : List α} {a : α}
    (h : l.getLast? = some a) : a ∈ l := by
  induction l with
  | nil => cases h
  | cons x t ih =>
    rcases t with _ | ⟨y, ts⟩
    · rw [List.getLast?_singleton] at h
      cases h
      exact List.mem_singleton_self _
    · rw [List.getLast?_cons_cons] at h
      exact List.mem_cons_of_mem _ (ih h)

/-- No pitch-class name contains a digit or a minus sign. -/
lemma NOTE_NAMES_no_digit :
    ∀ nm ∈ NOTE_NAMES, ∀ c ∈ nm.data, ¬(c.isDigit ∨ c = '-') := by decide

/-- A string containing a digit or minus character is not a pitch-class
name, so `indexOf` yields `-1`. -/
lemma noteNameIndex_of_bad_char (s : String) (c : Char) (hc : c ∈ s.data)
    (hbad : c.isDigit ∨ c = '-') : AudioAnalyzer.noteNameIndex s = -1 := by
  rw [AudioAnalyzer.noteNameIndex]
  have hfind : NOTE_NAMES.findIdx? (fun t => t = s) = none := by
    rw [List.findIdx?_eq_none_iff]
    intro nm hnm
    rw [decide_eq_false_iff_not]
    intro he
    exact NOTE_NAMES_no_digit nm hnm c (he ▸ hc) hbad
  rw [hfind]

/-- The error shape of `noteToFrequency`. -/
lemma noteToFrequency_error (note : String)
    (h : AudioAnalyzer.noteNameIndex ⟨note.data.dropLast⟩ = -1 ∨
      AudioAnalyzer.parseOctaveChar note = none) :
    AudioAnalyzer.noteToFrequency note =
      Except.error ("Invalid note format: " ++ note) := by
  simp only [AudioAnalyzer.noteToFrequency]
  rw [if_pos h]

/-- **C10.**  `noteToFrequency` parses the octave from only the final
character of the note string: for every note name whose octave part is
not a single digit — more characters, a leading minus sign, or nothing at
all (e.g. `"A10"` for octave 10 or `"C-1"` for octave −1, both of which
`frequencyToNote` produces for extreme frequencies) — the function throws
the invalid-note-format error instead of returning a frequency. -/
theorem C10_noteToFrequency_octave_parse :
    ∀ (name rest : String), name ∈ NOTE_NAMES →
      (∀ c ∈ rest.data, c.isDigit ∨ c = '-') →
      (∀ c, rest.data = [c] → ¬c.isDigit) →
      ∃ e, AudioAnalyzer.noteToFrequency (name ++ rest) = Except.error e := by
  intro name rest hname hchars hsingle
  refine ⟨_, noteToFrequency_error (name ++ rest) ?_⟩
  rcases hd : rest.data with _ | ⟨c, cs⟩
  · -- empty octave part: the note is just the name, whose last character
    -- is a letter or '#', so `parseInt` yields NaN
    right
    rw [AudioAnalyzer.parseOctaveChar]
    have hdata : (name ++ rest).data = name.data := by
      rw [String.data_append, hd, List.append_nil]
    rw [hdata]
    rcases hlast : name.data.getLast? with _ | c
    · rfl
    · have hmem : c ∈ name.data := mem_of_getLast?_eq_some hlast
      show (if c.isDigit then some (c.toNat - 48) else none) = none
      rw [if_neg fun hdig => NOTE_NAMES_no_digit name hname c hmem (Or.inl hdig)]
  · rcases cs with _ | ⟨c2, cs2⟩
    · -- a single non-digit character: necessarily '-', so `parseInt` fails
      right
      have hnd : ¬c.isDigit := hsingle c hd
      rw [AudioAnalyzer.parseOctaveChar]
      have hdata : (name ++ rest).data = name.data ++ [c] := by
        rw [String.data_append, hd]
      rw [hdata, List.getLast?_concat]
      show (if c.isDigit then some (c.toNat - 48) else none) = none
      rw [if_neg hnd]
    · -- two or more characters: the first octave character is glued onto
      -- the name part, which then matches no pitch-class name
      left
      have hcbad : c.isDigit ∨ c = '-' := hchars c (by rw [hd]; exact List.mem_cons_self _ _)
      refine noteNameIndex_of_bad_char _ c ?_ hcbad
      show c ∈ (name ++ rest).data.dropLast
      rw [String.data_append, hd]
      rw [List.dropLast_append_of_ne_nil _ (by simp)]
      refine List.mem_append_right _ ?_
      rw [List.dropLast_cons₂]
      exact List.mem_cons_self _ _

/-- Witness for `C10_noteToFrequency_octave_parse` at the note strings
`"A10"` (octave 10) and `"C-1"` (octave −1). -/
theorem C10_noteToFrequency_octave_parse_witness :
    ("A" ∈ NOTE_NAMES ∧ "C" ∈ NOTE_NAMES) ∧
    (∃ e, AudioAnalyzer.noteToFrequency "A10" = Except.error e) ∧
    (∃ e, AudioAnalyzer.noteToFrequency "C-1" = Except.error e) := by
  refine ⟨⟨by decide, by decide⟩, ?_, ?_⟩
  · have h := C10_noteToFrequency_octave_parse "A" "10" (by decide)
      (by decide) (by intro c hc; exfalso; simp at hc)
    rwa [show "A" ++ "10" = "A10" from rfl] at h
  · have h := C10_noteToFrequency_octave_parse "C" "-1" (by decide)
      (by decide) (by intro c hc; exfalso; simp at hc)
    rwa [show "C" ++ "-1" = "C-1" from rfl] at h

/-! ## Claim C8 -/

/-- Parsing a pitch-class name concatenated with a single-digit octave
recovers both parts: the final character parses as the octave digit, the
remainder is the name, and the name's index is its position. -/
lemma note_string_parse (k : ℕ) (hk : k < 12) (oct : ℤ) (h0 : 0 ≤ oct) (h9 : oct ≤ 9) :
    AudioAnalyzer.parseOctaveChar (NOTE_NAMES.getD k "" ++ toString oct) = some oct.toNat ∧
    (⟨(NOTE_NAMES.getD k "" ++ toString oct).data.dropLast⟩ : String) = NOTE_NAMES.getD k "" ∧
    AudioAnalyzer.noteNameIndex (NOTE_NAMES.getD k "") = (k : ℤ) := by
  interval_cases oct <;> interval_cases k <;> exact ⟨by decide, by decide, by decide⟩

/-- The successful shape of `noteToFrequency` after a clean parse. -/
lemma noteToFrequency_parse_ok (s : String) (k : ℕ) (o : ℕ)
    (hp : AudioAnalyzer.parseOctaveChar s = some o)
    (hi : AudioAnalyzer.noteNameIndex ⟨s.data.dropLast⟩ = (k : ℤ)) :
    AudioAnalyzer.noteToFrequency s =
      Except.ok (440 * (2 : ℝ) ^ ((((k : ℤ) + ((o : ℤ) - 4) * 12 - 9 : ℤ) : ℝ) / 12)) := by
  simp only [AudioAnalyzer.noteToFrequency, hp, hi]
  rw [if_neg]
  · rfl
  · push_neg
    constructor
    · omega
    · simp

/-- **C8.**  For every frequency in the detector's (default) valid range
[50 Hz, 5000 Hz], converting to a note name and back returns a frequency
within one equal-tempered semitone (a factor of `2^(1/12)`) of the
original: the rounding to the nearest semitone moves the pitch by at most
a factor `2^(1/24)` in either direction. -/
theorem C8_note_roundtrip :
    ∀ f : ℝ, 50 ≤ f → f ≤ 5000 →
      ∃ g : ℝ,
        AudioAnalyzer.noteToFrequency (AudioAnalyzer.frequencyToNote f) = Except.ok g ∧
        g ≤ f * (2 : ℝ) ^ ((1 : ℝ) / 12) ∧ f ≤ g * (2 : ℝ) ^ ((1 : ℝ) / 12) := by
  intro f h50 h5000
  have hfpos : (0 : ℝ) < f := by linarith
  have hdivpos : (0 : ℝ) < f / 440 := by positivity
  set x : ℝ := 12 * Real.logb 2 (f / 440) with hx
  set m : ℤ := round x + 69 with hm
  -- numeric range of the rounded MIDI index
  have hxlo : -54 ≤ x := by
    have h1 : -(9 : ℝ) / 2 ≤ Real.logb 2 (f / 440) := by
      rw [Real.le_logb_iff_rpow_le (by norm_num) hdivpos]
      have h2 : (2 : ℝ) ^ (-(9 : ℝ) / 2) ≤ (2 : ℝ) ^ (-(4 : ℝ)) :=
        Real.rpow_le_rpow_of_exponent_le (by norm_num) (by norm_num)
      have h3 : (2 : ℝ) ^ (-(4 : ℝ)) = 1 / 16 := by
        rw [show (-(4 : ℝ)) = ((-4 : ℤ) : ℝ) by norm_num, Real.rpow_intCast]
        norm_num
      have h4 : (1 : ℝ) / 16 ≤ f / 440 := by
        rw [div_le_div_iff (by norm_num) (by norm_num)]
        linarith
      rw [h3] at h2
      linarith
    rw [hx]
    linarith
  have hxhi : x ≤ 60 := by
    have h1 : Real.logb 2 (f / 440) ≤ 5 := by
      rw [Real.logb_le_iff_le_rpow (by norm_num) hdivpos]
      have h3 : (2 : ℝ) ^ ((5 : ℝ)) = 32 := by
        rw [show ((5 : ℝ)) = ((5 : ℤ) : ℝ) by norm_num, Real.rpow_intCast]
        norm_num
      rw [h3, div_le_iff (by norm_num)]
      linarith
    rw [hx]
    linarith
  have hrlo : -54 ≤ round x := by
    rw [round_eq]
    have h1 := Int.floor_mono (show (-54 : ℝ) + 1 / 2 ≤ x + 1 / 2 by linarith)
    have h2 : ⌊(-54 : ℝ) + 1 / 2⌋ = -54 := by norm_num
    omega
  have hrhi : round x ≤ 60 := by
    rw [round_eq]
    have h1 := Int.floor_mono (show x + 1 / 2 ≤ (60 : ℝ) + 1 / 2 by linarith)
    have h2 : ⌊(60 : ℝ) + 1 / 2⌋ = 60 := by norm_num
    omega
  have hmlo : 15 ≤ m := by omega
  have hmhi : m ≤ 129 := by omega
  -- the note string produced by frequencyToNote
  have hnote : AudioAnalyzer.frequencyToNote f =
      NOTE_NAMES.getD (m % 12).toNat "" ++ toString (Int.fdiv m 12 - 1) := by
    simp only [AudioAnalyzer.frequencyToNote]
  set oct : ℤ := Int.fdiv m 12 - 1 with hoct
  have hfd : Int.fdiv m 12 = m / 12 := by
    rw [Int.fdiv_eq_ediv]
    norm_num
  have hoct0 : 0 ≤ oct := by rw [hoct, hfd]; omega
  have hoct9 : oct ≤ 9 := by rw [hoct, hfd]; omega
  set k : ℕ := (m % 12).toNat with hkdef
  have hk12 : k < 12 := by rw [hkdef]; omega
  have hkz : (k : ℤ) = m % 12 := by rw [hkdef]; omega
  obtain ⟨hp, hdrop, hidx⟩ := note_string_parse k hk12 oct hoct0 hoct9
  have hok : AudioAnalyzer.noteToFrequency (AudioAnalyzer.frequencyToNote f) =
      Except.ok (440 * (2 : ℝ) ^
        ((((k : ℤ) + ((oct.toNat : ℤ) - 4) * 12 - 9 : ℤ) : ℝ) / 12)) := by
    rw [hnote]
    exact noteToFrequency_parse_ok _ k oct.toNat hp (by rw [hdrop]; exact hidx)
  have hsemi : ((k : ℤ) + ((oct.toNat : ℤ) - 4) * 12 - 9 : ℤ) = m - 69 := by
    have ht : (oct.toNat : ℤ) = oct := Int.toNat_of_nonneg hoct0
    rw [ht, hoct, hfd]
    omega
  rw [hsemi] at hok
  -- the returned frequency in terms of the rounding error
  have hfx : f = 440 * (2 : ℝ) ^ (x / 12) := by
    have h1 : x / 12 = Real.logb 2 (f / 440) := by rw [hx]; ring
    rw [h1, Real.rpow_logb (by norm_num) (by norm_num) hdivpos]
    field_simp
  have hmx : ((m - 69 : ℤ) : ℝ) = (round x : ℝ) := by push_cast [hm]; ring
  have habs : |(round x : ℝ) - x| ≤ 1 / 2 := by
    rw [abs_sub_comm]
    exact abs_sub_round x
  set g : ℝ := 440 * (2 : ℝ) ^ (((m - 69 : ℤ) : ℝ) / 12) with hg
  have hgf : g = f * (2 : ℝ) ^ (((round x : ℝ) - x) / 12) := by
    rw [hg, hmx, hfx]
    rw [mul_assoc, ← Real.rpow_add (by norm_num)]
    ring_nf
  refine ⟨g, hok, ?_, ?_⟩
  · rw [hgf]
    refine mul_le_mul_of_nonneg_left ?_ hfpos.le
    refine Real.rpow_le_rpow_of_exponent_le (by norm_num) ?_
    have : (round x : ℝ) - x ≤ 1 / 2 := le_trans (le_abs_self _) habs
    linarith
  · have h1 : f = g * (2 : ℝ) ^ ((x - (round x : ℝ)) / 12) := by
      rw [hgf, mul_assoc, ← Real.rpow_add (by norm_num)]
      ring_nf
    rw [h1]
    refine mul_le_mul_of_nonneg_left ?_ (by rw [hgf]; positivity)
    refine Real.rpow_le_rpow_of_exponent_le (by norm_num) ?_
    have : x - (round x : ℝ) ≤ 1 / 2 := by
      have := neg_abs_le ((round x : ℝ) - x)
      have h2 := habs
      rw [abs_sub_comm] at h2
      exact le_trans (le_abs_self _) h2
    linarith

/-- Witness for `C8_note_roundtrip` at 440 Hz (A4). -/
theorem C8_note_roundtrip_witness :
    (50 : ℝ) ≤ 440 ∧ (440 : ℝ) ≤ 5000 ∧
    ∃ g : ℝ,
      AudioAnalyzer.noteToFrequency (AudioAnalyzer.frequencyToNote 440) = Except.ok g ∧
      g ≤ 440 * (2 : ℝ) ^ ((1 : ℝ) / 12) ∧ (440 : ℝ) ≤ g * (2 : ℝ) ^ ((1 : ℝ) / 12) :=
  ⟨by norm_num, by norm_num, C8_note_roundtrip 440 (by norm_num) (by norm_num)⟩


/-! ## Claim C5 -/

set_option maxHeartbeats 1000000 in
/-- **C5.**  Whenever the BPM detector reports a BPM, the selected lag is
the one in the configured BPM lag band with the highest
onset-autocorrelation value that is also a local peak in a ±2-frame
neighborhood, ties broken by the first (smallest) lag; the reported BPM
is `round(60 / secondsPerBeat)` with
`secondsPerBeat = bestLag * hopSize / sampleRate`, and the reported
confidence is `bestPeakValue / autocorr[0]` clamped to at most 1. -/
theorem C5_bpm_peak_selection :
    ∀ (data : List ℝ) (sampleRate minBpm maxBpm : ℚ) (res : BPMDetector.Result) (b : ℤ),
      BPMDetector.detect data sampleRate minBpm maxBpm = Except.ok res →
      res.bpm = some b →
      ∃ lag : ℕ,
        lag ∈ BPMDetector.lagBand (BPMDetector.onsetAutocorr data sampleRate).length
          sampleRate minBpm maxBpm ∧
        0 < lag ∧
        BPMDetector.isLocalPeak (BPMDetector.onsetAutocorr data sampleRate) lag ∧
        0 < (BPMDetector.onsetAutocorr data sampleRate).getD lag 0 ∧
        (∀ l ∈ BPMDetector.lagBand (BPMDetector.onsetAutocorr data sampleRate).length
            sampleRate minBpm maxBpm,
          BPMDetector.isLocalPeak (BPMDetector.onsetAutocorr data sampleRate) l →
          (BPMDetector.onsetAutocorr data sampleRate).getD l 0 ≤
            (BPMDetector.onsetAutocorr data sampleRate).getD lag 0) ∧
        (∀ l ∈ BPMDetector.lagBand (BPMDetector.onsetAutocorr data sampleRate).length
            sampleRate minBpm maxBpm,
          BPMDetector.isLocalPeak (BPMDetector.onsetAutocorr data sampleRate) l →
          (BPMDetector.onsetAutocorr data sampleRate).getD l 0 =
            (BPMDetector.onsetAutocorr data sampleRate).getD lag 0 → lag ≤ l) ∧
        b = round ((60 : ℚ) / ((lag * BPMDetector.hopSize sampleRate : ℚ) / sampleRate)) ∧
        res.confidence = min ((BPMDetector.onsetAutocorr data sampleRate).getD lag 0 /
          (BPMDetector.onsetAutocorr data sampleRate).getD 0 0) 1 := by
  intro data sampleRate minBpm maxBpm res b hok hbpm
  by_cases hneg : BPMDetector.numFramesZ data.length sampleRate < 0
  · rw [BPMDetector.detect, if_pos hneg] at hok
    cases hok
  · rw [BPMDetector.detect_eq_ok data sampleRate minBpm maxBpm hneg] at hok
    cases hok
    set ac := BPMDetector.onsetAutocorr data sampleRate with hac
    set band := BPMDetector.lagBand ac.length sampleRate minBpm maxBpm with hband
    set sel := BPMDetector.selectBestLag ac band with hsel
    simp only at hbpm
    by_cases hpos : 0 < sel.2
    swap
    · rw [if_neg hpos] at hbpm
      cases hbpm
    rw [if_pos hpos] at hbpm
    -- characterize the accepted lag
    have hfold : band.foldl (BPMDetector.selectStep ac) (0, 0) = sel := rfl
    have hres := BPMDetector.foldl_selectStep_result ac band (0, 0)
    rw [hfold] at hres
    rcases hres with hcase | hcase
    · rw [hcase] at hpos
      exact absurd hpos (lt_irrefl 0)
    obtain ⟨hmem, hpeak, hval, hgt⟩ := hcase
    have hub := BPMDetector.foldl_selectStep_ub ac band (0, 0)
    rw [hfold] at hub
    have hfirst := BPMDetector.foldl_selectStep_first ac band (0, 0)
      (BPMDetector.lagBand_pairwise ac.length sampleRate minBpm maxBpm)
      (fun x _ => Nat.zero_le x)
    rw [hfold] at hfirst
    refine ⟨sel.2, hmem, hpos, hpeak, by rw [hval]; exact hgt, ?_, ?_, ?_, ?_⟩
    · intro l hl hp
      rw [hval]
      exact hub l hl hp
    · intro l hl hp he
      refine hfirst l hl hp ?_
      rw [← hval]
      exact he
    · cases hbpm
      rfl
    · have hac0pos : 0 < ac.getD 0 0 := by
        have h1 : ac.getD sel.2 0 ≤ ac.getD 0 0 := by
          rw [hac, BPMDetector.onsetAutocorr]
          exact BPMDetector.autocorrelate_getD_le_zero _ _
        rw [hval] at h1
        exact lt_of_lt_of_le hgt h1
      simp only
      rw [if_neg (ne_of_gt hac0pos), hval]

/-- A 15-sample buffer at 100 Hz with onsets 6 hop-frames apart: two
amplitude-2 clicks at samples 5 and 11. -/
def c5buf : List ℝ := [0, 0, 0, 0, 0, 2, 0, 0, 0, 0, 0, 2, 0, 0, 0]

lemma c5_numFrames : BPMDetector.numFramesZ c5buf.length 100 = 11 := by
  norm_num [c5buf, BPMDetector.numFramesZ, BPMDetector.windowSize, BPMDetector.hopSize,
    show Int.toNat 4 = 4 from rfl, show Int.toNat 1 = 1 from rfl]

set_option maxHeartbeats 2000000 in
lemma c5_envelope : BPMDetector.onsetEnvelope c5buf 100 =
    [0, 0, 1, 1, 1, 1, 0, 0, 1, 1, 1] := by
  rw [BPMDetector.onsetEnvelope, c5_numFrames]
  norm_num [BPMDetector.calculateEnergyEnvelope, BPMDetector.windowSize, BPMDetector.hopSize,
    show Int.toNat 4 = 4 from rfl, show Int.toNat 1 = 1 from rfl,
    show Int.toNat 11 = 11 from rfl, List.range_succ, Finset.sum_range_succ,
    c5buf, List.getD_cons_zero, List.getD_cons_succ, Real.sqrt_zero, Real.sqrt_one]

set_option maxHeartbeats 2000000 in
lemma c5_curve : BPMDetector.onsetCurve c5buf 100 = [0, 0, 1, 0, 0, 0, 0, 0, 1, 0, 0] := by
  rw [BPMDetector.onsetCurve, c5_envelope]
  norm_num [BPMDetector.differentiate, List.range_succ,
    List.getD_cons_zero, List.getD_cons_succ, max_def]

set_option maxHeartbeats 2000000 in
lemma c5_autocorr : BPMDetector.onsetAutocorr c5buf 100 =
    [2, 0, 0, 0, 0, 0, 1, 0, 0, 0, 0] := by
  rw [BPMDetector.onsetAutocorr, c5_curve]
  norm_num [BPMDetector.autocorrelate, List.range_succ, Finset.sum_range_succ,
    List.getD_cons_zero, List.getD_cons_succ]

lemma c5_band : BPMDetector.lagBand 11 100 750 1200 = [5, 6, 7, 8] := by
  have h1 : BPMDetector.bpmMinLagZ 100 1200 = 5 := by
    norm_num [BPMDetector.bpmMinLagZ, BPMDetector.hopSize, show Int.toNat 1 = 1 from rfl]
  have h2 : BPMDetector.bpmMaxLagZ 100 750 = 8 := by
    norm_num [BPMDetector.bpmMaxLagZ, BPMDetector.hopSize, show Int.toNat 1 = 1 from rfl]
  rw [BPMDetector.lagBand, h1, h2]
  decide

lemma c5_peak6 : BPMDetector.isLocalPeak [(2 : ℝ), 0, 0, 0, 0, 0, 1, 0, 0, 0, 0] 6 := by
  intro i hi hne
  rw [Finset.mem_Icc] at hi
  simp only [List.length_cons, List.length_nil] at hi
  have hi4 : 4 ≤ i := hi.1
  have hi8 : i ≤ 8 := le_trans hi.2 (min_le_right _ _)
  interval_cases i
  · norm_num [List.getD_cons_zero, List.getD_cons_succ]
  · norm_num [List.getD_cons_zero, List.getD_cons_succ]
  · exact absurd rfl hne
  · norm_num [List.getD_cons_zero, List.getD_cons_succ]
  · norm_num [List.getD_cons_zero, List.getD_cons_succ]

lemma c5_sel : BPMDetector.selectBestLag [(2 : ℝ), 0, 0, 0, 0, 0, 1, 0, 0, 0, 0]
    [5, 6, 7, 8] = (1, 6) := by
  have s5 : BPMDetector.selectStep [(2 : ℝ), 0, 0, 0, 0, 0, 1, 0, 0, 0, 0] (0, 0) 5 =
      (0, 0) := by
    rw [BPMDetector.selectStep, if_neg]
    intro hcon
    have := hcon.1
    norm_num [List.getD_cons_zero, List.getD_cons_succ] at this
  have s6 : BPMDetector.selectStep [(2 : ℝ), 0, 0, 0, 0, 0, 1, 0, 0, 0, 0] (0, 0) 6 =
      (1, 6) := by
    rw [BPMDetector.selectStep,
      if_pos ⟨by norm_num [List.getD_cons_zero, List.getD_cons_succ], c5_peak6⟩]
    norm_num [List.getD_cons_zero, List.getD_cons_succ]
  have s7 : BPMDetector.selectStep [(2 : ℝ), 0, 0, 0, 0, 0, 1, 0, 0, 0, 0] (1, 6) 7 =
      (1, 6) := by
    rw [BPMDetector.selectStep, if_neg]
    intro hcon
    have := hcon.1
    norm_num [List.getD_cons_zero, List.getD_cons_succ] at this
  have s8 : BPMDetector.selectStep [(2 : ℝ), 0, 0, 0, 0, 0, 1, 0, 0, 0, 0] (1, 6) 8 =
      (1, 6) := by
    rw [BPMDetector.selectStep, if_neg]
    intro hcon
    have := hcon.1
    norm_num [List.getD_cons_zero, List.getD_cons_succ] at this
  rw [BPMDetector.selectBestLag]
  simp only [List.foldl_cons, List.foldl_nil, s5, s6, s7, s8]

/-- Witness for `C5_bpm_peak_selection`: on `c5buf` (clicks 6 frames
apart, BPM bounds 750–1200) the detector reports BPM 1000 from lag 6. -/
theorem C5_bpm_peak_selection_witness :
    ∃ (res : BPMDetector.Result) (b : ℤ),
      BPMDetector.detect c5buf 100 750 1200 = Except.ok res ∧
      res.bpm = some b ∧ b = 1000 ∧
      ∃ lag : ℕ,
        lag ∈ BPMDetector.lagBand (BPMDetector.onsetAutocorr c5buf 100).length 100 750 1200 ∧
        0 < lag ∧
        BPMDetector.isLocalPeak (BPMDetector.onsetAutocorr c5buf 100) lag ∧
        0 < (BPMDetector.onsetAutocorr c5buf 100).getD lag 0 ∧
        (∀ l ∈ BPMDetector.lagBand (BPMDetector.onsetAutocorr c5buf 100).length 100 750 1200,
          BPMDetector.isLocalPeak (BPMDetector.onsetAutocorr c5buf 100) l →
          (BPMDetector.onsetAutocorr c5buf 100).getD l 0 ≤
            (BPMDetector.onsetAutocorr c5buf 100).getD lag 0) ∧
        (∀ l ∈ BPMDetector.lagBand (BPMDetector.onsetAutocorr c5buf 100).length 100 750 1200,
          BPMDetector.isLocalPeak (BPMDetector.onsetAutocorr c5buf 100) l →
          (BPMDetector.onsetAutocorr c5buf 100).getD l 0 =
            (BPMDetector.onsetAutocorr c5buf 100).getD lag 0 → lag ≤ l) ∧
        b = round ((60 : ℚ) / ((lag * BPMDetector.hopSize 100 : ℚ) / 100)) ∧
        res.confidence = min ((BPMDetector.onsetAutocorr c5buf 100).getD lag 0 /
          (BPMDetector.onsetAutocorr c5buf 100).getD 0 0) 1 := by
  have hframes : ¬BPMDetector.numFramesZ c5buf.length 100 < 0 := by
    rw [c5_numFrames]
    norm_num
  have hok := BPMDetector.detect_eq_ok c5buf 100 750 1200 hframes
  have hlen : (BPMDetector.onsetAutocorr c5buf 100).length = 11 := by
    rw [c5_autocorr]
    rfl
  have hsel : BPMDetector.selectBestLag (BPMDetector.onsetAutocorr c5buf 100)
      (BPMDetector.lagBand (BPMDetector.onsetAutocorr c5buf 100).length 100 750 1200) =
      (1, 6) := by
    rw [hlen, c5_band, c5_autocorr, c5_sel]
  have hbpm :
      (if 0 < (BPMDetector.selectBestLag (BPMDetector.onsetAutocorr c5buf 100)
            (BPMDetector.lagBand (BPMDetector.onsetAutocorr c5buf 100).length
              100 750 1200)).2
        then some (round ((60 : ℚ) /
          (((BPMDetector.selectBestLag (BPMDetector.onsetAutocorr c5buf 100)
              (BPMDetector.lagBand (BPMDetector.onsetAutocorr c5buf 100).length
                100 750 1200)).2 * BPMDetector.hopSize 100 : ℚ) / 100)))
        else none) = some 1000 := by
    rw [hsel]
    rw [if_pos (by norm_num)]
    congr 1
    rw [round_eq]
    norm_num [BPMDetector.hopSize, show Int.toNat 1 = 1 from rfl]
  refine ⟨_, 1000, hok, hbpm, rfl,
    C5_bpm_peak_selection c5buf 100 750 1200 _ 1000 hok hbpm⟩

end AudioAnalysis
